import Mathlib

/-!
Verification development for the swarmgrid multi-agent pathfinding simulator.

The definitions below are a shallow embedding of the C++ sources:
  - src/include/swarmgrid/core/types.hpp   (Cell, World, AgentState)
  - src/src/core/world.cpp                 (WorldManager)
  - src/src/core/planner.cpp               (PathPlanner)
  - src/src/adapters/net_sim_asio.cpp      (NetSimAsio)
  - src/src/simulation.cpp                 (Simulation tick loop)

Modelling conventions:
  - boost::uuids::uuid agent identifiers are modelled as natural numbers
    (all the code uses is equality and the total order).
  - C++ int / Tick is modelled as Int; unsigned counters as Nat.
  - std::priority_queue pop order among elements with equal priority is
    unspecified in C++; the model pops the first element among those with
    minimal priority (FIFO among ties).  All concrete runs evaluated below
    were chosen so that the observable outcome does not depend on the tie
    order.
  - boost::multi_index hashed containers are modelled as lists with
    insert-if-key-absent semantics; only find/insert/erase are observable.
  - The network adapter is evaluated in the deterministic regime
    drop_probability = 0, mean_latency_ms = 0, jitter_ms = 0, where
    should_drop_message() is always false and delivery tick is
    send timestamp + 1; no randomness remains.
-/

namespace Swarm

/-- Agent identifier (models boost::uuids::uuid: equality + total order). -/
def AgentId := Nat

instance : DecidableEq AgentId := instDecidableEqNat
instance : LT AgentId := ⟨fun a b => Nat.lt a b⟩
instance (a b : AgentId) : Decidable (a < b) := Nat.decLt a b
instance : OfNat AgentId n := ⟨n⟩
instance : Repr AgentId := instReprNat

/-- Simulation tick (C++ using Tick = int). -/
def Tick := Int

instance : DecidableEq Tick := Int.instDecidableEq
instance : OfNat Tick n := ⟨(n : Int)⟩

/-- Grid coordinate, from types.hpp struct Cell. -/
structure Cell where
  x : Int
  y : Int
deriving DecidableEq, Repr

instance : Inhabited Cell := ⟨⟨0, 0⟩⟩

/-- Agent state, from types.hpp struct AgentState.  The display-only fields
planned_path / path_index / replans are not read by the engine and are
omitted.  collision_stopped is used by simulation.cpp but its declaration is
not part of the headers included under src; it is modelled from the spec
(latched flag, see set_agent_collision_stopped below). -/
structure AgentState where
  id : AgentId
  pos : Cell
  goal : Cell
  at_goal : Bool := false
  collision_stopped : Bool := false
deriving DecidableEq, Repr

/-- World, from types.hpp struct World (rng_seed omitted: never read by the
engine logic embedded here). -/
structure World where
  width : Int
  height : Int
  grid : List (List Char)
  agents : List AgentState
  current_tick : Int := 0
deriving DecidableEq, Repr

/-- types.hpp World::is_valid_cell. -/
def World.is_valid_cell (w : World) (c : Cell) : Bool :=
  decide (0 ≤ c.x) && decide (c.x < w.width) && decide (0 ≤ c.y) && decide (c.y < w.height)

/-- Character of the grid at a cell (grid[y][x]); callers establish bounds. -/
def World.gridAt (w : World) (c : Cell) : Char :=
  (w.grid.getD c.y.toNat []).getD c.x.toNat '#'

/-- types.hpp World::is_free_cell. -/
def World.is_free_cell (w : World) (c : Cell) : Bool :=
  w.is_valid_cell c && (w.gridAt c != '#')

/-- types.hpp World::is_occupied (exclude_id argument explicit). -/
def World.is_occupied (w : World) (c : Cell) (exclude_id : AgentId) : Bool :=
  w.agents.any fun a => a.id != exclude_id && a.pos == c

/-- planner.hpp struct ReservationKey. -/
structure ReservationKey where
  x : Int
  y : Int
  t : Int
deriving DecidableEq, Repr

/-- planner.hpp struct ReservationEntry. -/
structure ReservationEntry where
  key : ReservationKey
  agent_id : AgentId
deriving DecidableEq, Repr

/-- planner.hpp ReservationTable: a boost multi_index container, hashed
unique on key, hashed non-unique on agent_id.  Modelled as a list of
entries; the unique-key index is reflected by insert-if-absent and by the
keysUnique invariant below. -/
def ReservationTable := List ReservationEntry

instance : DecidableEq ReservationTable := List.hasDecEq
instance : Membership ReservationEntry ReservationTable := List.instMembership
instance : EmptyCollection ReservationTable := ⟨([] : List ReservationEntry)⟩

/-- Lookup by key: the hashed_unique index find(). -/
def ReservationTable.find (T : ReservationTable) (k : ReservationKey) : Option ReservationEntry :=
  List.find? (fun e => e.key == k) T

/-- Insert: fails (leaves the table unchanged) when the key is present,
mirroring hashed_unique insert. -/
def ReservationTable.insertEntry (T : ReservationTable) (e : ReservationEntry) : ReservationTable :=
  match T.find e.key with
  | some _ => T
  | none => e :: T

/-- Erase every entry of one agent: planner.cpp clear_reservations via the
agent index. -/
def ReservationTable.eraseAgent (T : ReservationTable) (a : AgentId) : ReservationTable :=
  List.filter (fun e => e.agent_id != a) T

/-- The unique-key invariant maintained by the container. -/
def ReservationTable.keysUnique (T : ReservationTable) : Prop :=
  (List.map (fun e => e.key) T).Nodup

/-- A reservation entry (k, b) is in the table, as observable through find
(with keysUnique, the same as membership). -/
def ReservationTable.holds (T : ReservationTable) (b : AgentId) (k : ReservationKey) : Prop :=
  match T.find k with
  | some e => e.agent_id = b
  | none => False

instance (T : ReservationTable) (b : AgentId) (k : ReservationKey) :
    Decidable (T.holds b k) := by
  unfold ReservationTable.holds
  cases T.find k <;> simp <;> infer_instance

/-- The key is present in the table (find succeeds). -/
def ReservationTable.keyMem (T : ReservationTable) (k : ReservationKey) : Prop :=
  (T.find k).isSome = true

instance (T : ReservationTable) (k : ReservationKey) : Decidable (T.keyMem k) := by
  unfold ReservationTable.keyMem
  infer_instance

instance (T : ReservationTable) : Decidable (T.keysUnique) := by
  unfold ReservationTable.keysUnique
  infer_instance

/-- planner.cpp PathPlanner::is_reserved. -/
def is_reserved (T : ReservationTable) (c : Cell) (time : Int) (exclude_id : AgentId) : Bool :=
  match T.find ⟨c.x, c.y, time⟩ with
  | some e => e.agent_id != exclude_id
  | none => false

/-- planner.cpp PathPlanner::get_neighbors: the four adjacent free cells in
the dx/dy order N, E, S, W, then the cell itself (wait in place). -/
def get_neighbors (w : World) (c : Cell) : List Cell :=
  (List.filter (fun n => w.is_valid_cell n && w.is_free_cell n)
    [⟨c.x, c.y - 1⟩, ⟨c.x + 1, c.y⟩, ⟨c.x, c.y + 1⟩, ⟨c.x - 1, c.y⟩]) ++ [c]

/-- planner.cpp PathPlanner::heuristic: Manhattan distance (a nonnegative
integer; the C++ double only ever holds such values here). -/
def heuristic (a b : Cell) : Nat :=
  (a.x - b.x).natAbs + (a.y - b.y).natAbs

/-- The edge-collision scan inside astar_with_reservations: some other agent
holds (next_cell, current.time) and also (current.cell, current.time + 1). -/
def edge_collision (T : ReservationTable) (cur next : Cell) (ctime : Int)
    (agent_id : AgentId) : Bool :=
  T.any fun e =>
    e.agent_id != agent_id && e.key.t == ctime && e.key.x == next.x && e.key.y == next.y &&
      (match T.find ⟨cur.x, cur.y, ctime + 1⟩ with
       | some e2 => e2.agent_id == e.agent_id
       | none => false)

/-- A node of the space-time search: astar_with_reservations struct State. -/
structure SNode where
  cell : Cell
  time : Int
  f : Nat
deriving DecidableEq, Repr

/-- Key of g_score / came_from: (cell, time). -/
def SKey := Cell × Int

instance : DecidableEq SKey := instDecidableEqProd

/-- The search bookkeeping: open set, g_score, came_from. -/
structure SearchState where
  openSet : List SNode
  gs : List (SKey × Nat)
  came : List (SKey × SKey)

/-- Pop an element of minimal f from the open set (the first such element;
C++ leaves the order among equal f unspecified). -/
def popMin : List SNode → Option (SNode × List SNode)
  | [] => none
  | n :: ns =>
    match popMin ns with
    | none => some (n, [])
    | some (m, rest) => if n.f ≤ m.f then some (n, ns) else some (m, n :: rest)

/-- Assoc-list lookup for g_score / came_from maps. -/
def alookup {β : Type} (l : List (SKey × β)) (k : SKey) : Option β :=
  match List.find? (fun p => p.1 == k) l with
  | some p => some p.2
  | none => none

/-- Assoc-list write (std::unordered_map operator[] assignment). -/
def aset {β : Type} (l : List (SKey × β)) (k : SKey) (v : β) : List (SKey × β) :=
  match List.find? (fun p => p.1 == k) l with
  | some _ => List.map (fun p => if p.1 == k then (k, v) else p) l
  | none => (k, v) :: l

/-- Planner context: the fixed arguments of astar_with_reservations. -/
structure AstarCtx where
  world : World
  start : Cell
  goal : Cell
  resv : ReservationTable
  agent_id : AgentId
  start_time : Int

/-- The time horizon cap: start_time + width * height * 2. -/
def AstarCtx.maxTime (ctx : AstarCtx) : Int :=
  ctx.start_time + ctx.world.width * ctx.world.height * 2

/-- Path reconstruction: follow came_from links back to the start, collecting
cells (the C++ pushes then reverses; this builds the same list directly).
The fuel only bounds the chain length; it is chosen large enough below. -/
def reconstructAux (came : List (SKey × SKey)) : Nat → SKey → List Cell
  | 0, _ => []
  | fuel + 1, k =>
    match alookup came k with
    | some prev => reconstructAux came fuel prev ++ [k.1]
    | none => []

/-- Full reconstructed path: start, then the chain up to the goal node. -/
def reconstruct (ctx : AstarCtx) (came : List (SKey × SKey)) (k : SKey) : List Cell :=
  ctx.start :: reconstructAux came ((k.2 - ctx.start_time).toNat + 1) k

/-- One candidate-neighbor step of the expansion loop body of
astar_with_reservations (next_time is cur.time + 1; tentative_g is
g_score[current] + 1). -/
def expandOne (ctx : AstarCtx) (cur : SNode) (st : SearchState) (nc : Cell) : SearchState :=
  if is_reserved ctx.resv nc (cur.time + 1) ctx.agent_id then st
  else if nc ≠ cur.cell && edge_collision ctx.resv cur.cell nc cur.time ctx.agent_id then st
  else
    match alookup st.gs (nc, cur.time + 1) with
    | some old =>
      if ((alookup st.gs (cur.cell, cur.time)).getD 0) + 1 < old then
        { openSet := st.openSet ++ [⟨nc, cur.time + 1,
            ((alookup st.gs (cur.cell, cur.time)).getD 0) + 1 + heuristic nc ctx.goal⟩],
          gs := aset st.gs (nc, cur.time + 1)
            (((alookup st.gs (cur.cell, cur.time)).getD 0) + 1),
          came := aset st.came (nc, cur.time + 1) (cur.cell, cur.time) }
      else st
    | none =>
      { openSet := st.openSet ++ [⟨nc, cur.time + 1,
          ((alookup st.gs (cur.cell, cur.time)).getD 0) + 1 + heuristic nc ctx.goal⟩],
        gs := aset st.gs (nc, cur.time + 1)
          (((alookup st.gs (cur.cell, cur.time)).getD 0) + 1),
        came := aset st.came (nc, cur.time + 1) (cur.cell, cur.time) }

/-- Expansion of a popped node over all its neighbors. -/
def expand (ctx : AstarCtx) (cur : SNode) (st : SearchState) : SearchState :=
  (get_neighbors ctx.world cur.cell).foldl (expandOne ctx cur) st

/-- The main A* loop of astar_with_reservations.  Fuel-indexed; none means
the fuel ran out (shown below never to happen for the fuel bound used by
plan_path).  some [] is the no-path-found result. -/
def astarLoop (ctx : AstarCtx) : Nat → SearchState → Option (List Cell)
  | 0, _ => none
  | fuel + 1, st =>
    match popMin st.openSet with
    | none => some []
    | some (cur, rest) =>
      if cur.cell = ctx.goal then
        some (reconstruct ctx st.came (cur.cell, cur.time))
      else if ctx.maxTime ≤ cur.time then
        astarLoop ctx fuel { st with openSet := rest }
      else
        astarLoop ctx fuel (expand ctx cur { st with openSet := rest })

/-- Initial search state. -/
def initSearch (ctx : AstarCtx) : SearchState :=
  { openSet := [⟨ctx.start, ctx.start_time, heuristic ctx.start ctx.goal⟩],
    gs := [((ctx.start, ctx.start_time), 0)],
    came := [] }

/-- Fuel sufficient for termination: one more than the number of possible
search keys (free cells of the grid times the ticks of the horizon). -/
def AstarCtx.fuelBound (ctx : AstarCtx) : Nat :=
  ctx.world.width.toNat * ctx.world.height.toNat *
    ((ctx.world.width * ctx.world.height * 2).toNat + 1) + 1

/-- planner.cpp PathPlanner::plan_path (astar_with_reservations inlined; the
none fallback is unreachable, as proved below). -/
def plan_path (w : World) (start goal : Cell) (T : ReservationTable)
    (agent_id : AgentId) (start_time : Int) : List Cell :=
  if ¬ (w.is_free_cell start && w.is_free_cell goal) then []
  else
    let ctx : AstarCtx := ⟨w, start, goal, T, agent_id, start_time⟩
    match astarLoop ctx ctx.fuelBound (initSearch ctx) with
    | some p => p
    | none => []

/-- planner.cpp PathPlanner::clear_reservations. -/
def clear_reservations (agent_id : AgentId) (T : ReservationTable) : ReservationTable :=
  T.eraseAgent agent_id

/-- The keys claimed by commit_reservations: one per path index, then the
goal cell for 100 further ticks. -/
def commitKeys (path : List Cell) (start_time : Int) : List ReservationKey :=
  (List.range path.length).map
    (fun i => ⟨(path.getD i ⟨0, 0⟩).x, (path.getD i ⟨0, 0⟩).y, start_time + i⟩) ++
  (if path.isEmpty then [] else
    (List.range 100).map
      (fun f => ⟨(path.getLast! ).x, (path.getLast!).y, start_time + path.length + f⟩))

/-- planner.cpp PathPlanner::commit_reservations: erase the agent, insert
one entry per path index, then reserve the final cell for 100 future ticks. -/
def commit_reservations (path : List Cell) (agent_id : AgentId)
    (T : ReservationTable) (start_time : Int) : ReservationTable :=
  (commitKeys path start_time).foldl
    (fun t k => t.insertEntry ⟨k, agent_id⟩)
    (clear_reservations agent_id T)

/-- A legal planner step: stay in place or move to a 4-adjacent cell. -/
def isLegalStep (c c2 : Cell) : Bool :=
  (c2 == c) || ((c2.x - c.x).natAbs + (c2.y - c.y).natAbs == 1)

/-- The per-step guarantees established by the A* expansion for a cell c2
entered at tick t from cell c: legal step, free target, no vertex conflict,
and (for real moves) no swap conflict against tick t - 1. -/
def ChainStepCells (ctx : AstarCtx) (c c2 : Cell) (t : Int) : Prop :=
  isLegalStep c c2 = true ∧ ctx.world.is_free_cell c2 = true ∧
  is_reserved ctx.resv c2 t ctx.agent_id = false ∧
  (c2 ≠ c → edge_collision ctx.resv c c2 (t - 1) ctx.agent_id = false)

/-- A came_from link: the child is one tick after the parent and the step
checks hold. -/
def ChainStep (ctx : AstarCtx) (prev k : SKey) : Prop :=
  k.2 = prev.2 + 1 ∧ ChainStepCells ctx prev.1 k.1 k.2

/-- Invariant of the g_score map: distinct keys; every key is a free cell
within the time horizon and its value is its time offset from start_time. -/
def gsOK (ctx : AstarCtx) (st : SearchState) : Prop :=
  (st.gs.map (fun p => p.1)).Nodup ∧
  ∀ p ∈ st.gs, ctx.world.is_free_cell p.1.1 = true ∧ ctx.start_time ≤ p.1.2 ∧
    p.1.2 ≤ ctx.maxTime ∧ (p.2 : Int) = p.1.2 - ctx.start_time

/-- Invariant of the open set: every node is registered in g_score and is
either the start node or has a came_from entry. -/
def openOK (ctx : AstarCtx) (st : SearchState) : Prop :=
  ∀ n ∈ st.openSet, ((n.cell, n.time) ∈ st.gs.map (fun p => p.1)) ∧
    ((n.cell, n.time) = (ctx.start, ctx.start_time) ∨
      (n.cell, n.time) ∈ st.came.map (fun p => p.1))

/-- Invariant of the came_from map: each link is a checked step, parents are
the start node or themselves linked, and keys lie strictly after
start_time. -/
def CameInv (ctx : AstarCtx) (came : List (SKey × SKey)) : Prop :=
  ∀ q ∈ came, ChainStep ctx q.2 q.1 ∧
    (q.2 = (ctx.start, ctx.start_time) ∨ q.2 ∈ came.map (fun p => p.1)) ∧
    ctx.start_time < q.1.2

/-- The full A* loop invariant. -/
def StInv (ctx : AstarCtx) (st : SearchState) : Prop :=
  gsOK ctx st ∧ openOK ctx st ∧ CameInv ctx st.came ∧
  ∀ q ∈ st.came, q.1 ∈ st.gs.map (fun p => p.1)

/-- Path-level consequence of the invariants: every consecutive pair of the
path is a checked step at the right tick. -/
def PathOK (ctx : AstarCtx) (p : List Cell) : Prop :=
  ∀ i : Nat, i + 1 < p.length →
    ChainStepCells ctx (p.getD i default) (p.getD (i + 1) default)
      (ctx.start_time + i + 1)

/-- The number of possible search keys: free cells of the grid times the
ticks of the horizon; fuelBound is one more than this. -/
def SBound (ctx : AstarCtx) : Nat :=
  ctx.world.width.toNat * ctx.world.height.toNat *
    ((ctx.world.width * ctx.world.height * 2).toNat + 1)

/-! ## WorldManager (world.cpp) -/

/-- Find the agent with the given id (std::find_if over world.agents). -/
def findAgent (w : World) (agent_id : AgentId) : Option AgentState :=
  w.agents.find? (fun a => a.id == agent_id)

/-- Apply f to the agent with the given id (ids are unique). -/
def updateAgent (w : World) (agent_id : AgentId) (f : AgentState → AgentState) : World :=
  { w with agents := w.agents.map (fun a => if a.id == agent_id then f a else a) }

/-- world.cpp WorldManager::move_agent.  Returns the C++ bool result and the
updated world. -/
def move_agent (w : World) (agent_id : AgentId) (new_pos : Cell) : Bool × World :=
  match findAgent w agent_id with
  | none => (false, w)
  | some _ =>
    if ¬ (w.is_valid_cell new_pos) ∨ ¬ (w.is_free_cell new_pos) then (false, w)
    else if w.is_occupied new_pos agent_id then (false, w)
    else
      (true, updateAgent w agent_id (fun a =>
        { a with pos := new_pos,
                 at_goal := if new_pos == a.goal then true else a.at_goal }))

/-- Modelled from the spec: WorldManager::set_agent_collision_stopped, whose
definition is not among the headers/sources provided (only its call sites in
simulation.cpp are).  Per the spec, collision_stopped is a per-agent flag
latched by the collision handler and cleared only by the deadlock resolver;
the setter writes the given value on the named agent. -/
def set_agent_collision_stopped (w : World) (agent_id : AgentId) (b : Bool) : World :=
  updateAgent w agent_id (fun a => { a with collision_stopped := b })

/-- world.cpp WorldManager::check_collision. -/
def check_collision (w : World) (agent_id : AgentId) (pos : Cell) : Bool :=
  w.is_occupied pos agent_id

/-- world.cpp WorldManager::detect_collisions: every cell holding at least
two agents contributes all its agents.  Cells are visited in order of first
appearance in the agents list (the C++ unordered_map iteration order is
unspecified; all concrete runs below have at most one colliding cell). -/
def detect_collisions (w : World) : List AgentId :=
  ((w.agents.map (fun a => a.pos)).eraseDups).foldl
    (fun acc c =>
      let ids := (w.agents.filter (fun a => a.pos == c)).map (fun a => a.id)
      if ids.length > 1 then acc ++ ids else acc)
    []

/-- world.cpp WorldManager::all_agents_at_goal. -/
def all_agents_at_goal (w : World) : Bool :=
  w.agents.all (fun a => a.at_goal)

/-! ## Network adapter (net_sim_asio.cpp), deterministic regime

NetworkParams are fixed to drop_probability = 0, mean_latency_ms = 0,
jitter_ms = 0: should_drop_message() draws a uniform value in the unit
interval and compares it with < 0, which is always false, and
calculate_delivery_time returns send_tick + 1.  No RNG state remains.

send pushes into the single broadcast priority queue (keyed by the nil
uuid); the per-agent queues are never written by send, so receive's
agent-specific branch never fires.  The priority queue is ordered by
delivery tick; pop order among equal delivery ticks is unspecified in C++
and modelled as FIFO. -/

inductive MessageType where
  | PATH_ANNOUNCEMENT
  | STATE_SYNC
  | GOAL_REACHED
deriving DecidableEq, Repr

/-- inet.hpp struct Message (the from field is spelled from_agent because
from is a Lean keyword; full_state's shared_ptr is an Option). -/
structure Message where
  from_agent : AgentId
  mtype : MessageType := MessageType.PATH_ANNOUNCEMENT
  next : Cell := ⟨0, 0⟩
  timestamp : Int := 0
  planned_path : List Cell := []
  sequence_number : Nat := 0
  full_state : Option ReservationTable := none
  vector_clock : List (AgentId × Nat) := []
deriving DecidableEq

/-- The broadcast queue: (message, delivery tick) pairs.  Kept in enqueue
order; in the zero-latency regime delivery ticks are nondecreasing, so the
list is sorted by delivery tick and FIFO pop-min coincides with head-first
traversal. -/
def NetQueue := List (Message × Int)

instance : DecidableEq NetQueue := List.hasDecEq
instance : EmptyCollection NetQueue := ⟨([] : List (Message × Int))⟩

/-- net_sim_asio.cpp NetSimAsio::send in the deterministic regime: never
drops, delivery tick = msg.timestamp + 1. -/
def netSend (q : NetQueue) (m : Message) : NetQueue :=
  List.append q [(m, m.timestamp + 1)]

/-- net_sim_asio.cpp NetSimAsio::receive: pop every message whose delivery
tick is at most current_tick, discarding those authored by the caller, and
return the rest of the queue.  (Messages due now are consumed even when
authored by the caller, and a message popped for one caller is gone for
every other caller: the queue is shared.) -/
def netReceive (q : NetQueue) (agent_id : AgentId) (current_tick : Int) :
    List Message × NetQueue :=
  ((List.filter (fun p => decide (p.2 ≤ current_tick)) q).filterMap
     (fun p => if p.1.from_agent == agent_id then none else some p.1),
   List.filter (fun p => ¬ decide (p.2 ≤ current_tick)) q)

/-! ## Simulation (simulation.cpp), deterministic regime -/

/-- simulation.hpp AgentController::OtherAgentIntent. -/
structure OtherAgentIntent where
  agent_id : AgentId
  next_position : Cell
  timestamp : Int
  announced_path : List Cell
deriving DecidableEq, Repr

/-- simulation.hpp AgentController. -/
structure AgentController where
  id : AgentId
  current_path : List Cell := []
  path_index : Nat := 0
  last_intent : Cell := ⟨0, 0⟩
  needs_replan : Bool := true
  wait_counter : Int := 0
  known_intents : List OtherAgentIntent := []
  local_reservations : ReservationTable := []
  last_seen_sequence : List (AgentId × Nat) := []
  last_state_broadcast : Int := 0
  last_state_received : Int := 0
  vector_clock : List (AgentId × Nat) := []
  local_clock : Nat := 0
  stuck_counter : Int := 0
  last_position : Cell := ⟨-1, -1⟩
  last_successful_move : Int := 0
deriving DecidableEq

def MAX_WAIT : Int := 5
def STATE_BROADCAST_INTERVAL : Int := 10
def STALE_STATE_THRESHOLD : Int := 15
def DEADLOCK_THRESHOLD : Int := 6

/-- unordered_map<uuid, uint64_t> lookup with operator[] default 0. -/
def amGet (m : List (AgentId × Nat)) (k : AgentId) : Nat :=
  ((m.find? (fun p => p.1 == k)).map (fun p => p.2)).getD 0

/-- unordered_map find: present or not. -/
def amFind (m : List (AgentId × Nat)) (k : AgentId) : Option Nat :=
  (m.find? (fun p => p.1 == k)).map (fun p => p.2)

/-- unordered_map operator[] assignment. -/
def amSet (m : List (AgentId × Nat)) (k : AgentId) (v : Nat) : List (AgentId × Nat) :=
  match m.find? (fun p => p.1 == k) with
  | some _ => m.map (fun p => if p.1 == k then (k, v) else p)
  | none => (k, v) :: m

/-- The vector-clock update done on every received message
(receive_and_update_local_state, first block of the message loop). -/
def clockMerge (ctl : AgentController) (m : Message) : AgentController :=
  let vc := m.vector_clock.foldl
    (fun vc p => amSet vc p.1 (Nat.max (amGet vc p.1) p.2)) ctl.vector_clock
  let lc := Nat.max ctl.local_clock (amGet vc ctl.id) + 1
  { ctl with vector_clock := amSet vc ctl.id lc, local_clock := lc }

/-- The lookahead conflict scan of receive_and_update_local_state: some
offset below 15, within both paths, where our remaining path and the
announced path give the same cell.  (The C++ double loop only acts on equal
offsets.) -/
def conflictAhead (ctl : AgentController) (m : Message) : Bool :=
  (List.range 15).any fun off =>
    decide (ctl.path_index + off < ctl.current_path.length) &&
    decide (off < m.planned_path.length) &&
    (ctl.current_path.getD (ctl.path_index + off) default ==
      m.planned_path.getD off default)

/-- The yield decision of the conflict scan: vector clocks when both are
present, agent-id order otherwise. -/
def yieldDecision (ctl : AgentController) (m : Message) : Bool :=
  match amFind m.vector_clock m.from_agent, amFind ctl.vector_clock ctl.id with
  | some their, some our => decide (their > our)
  | _, _ => decide (m.from_agent < ctl.id)

/-- STATE_SYNC merge of one received reservation entry
(receive_and_update_local_state). -/
def mergeReservation (ctl : AgentController) (m : Message)
    (T : ReservationTable) (res : ReservationEntry) : ReservationTable :=
  match T.find res.key with
  | none => T.insertEntry res
  | some existing =>
    let should_replace :=
      match amFind m.vector_clock res.agent_id, amFind ctl.vector_clock existing.agent_id with
      | some their, some ours => decide (their > ours)
      | _, _ => decide (res.agent_id < existing.agent_id)
    if should_replace then ReservationTable.insertEntry (List.erase T existing) res else T

/-- Processing of one received message (receive_and_update_local_state,
body of the message loop). -/
def processMessage (current_tick : Int) (ctl : AgentController) (m : Message) :
    AgentController :=
  let ctl := clockMerge ctl m
  match m.mtype with
  | MessageType.PATH_ANNOUNCEMENT | MessageType.GOAL_REACHED =>
    let intent : OtherAgentIntent := ⟨m.from_agent, m.next, m.timestamp, m.planned_path⟩
    let ki :=
      if (ctl.known_intents.find? (fun i => i.agent_id == m.from_agent)).isSome then
        ctl.known_intents.map (fun i => if i.agent_id == m.from_agent then intent else i)
      else ctl.known_intents ++ [intent]
    let lr :=
      if m.planned_path.isEmpty then ctl.local_reservations
      else commit_reservations m.planned_path m.from_agent ctl.local_reservations current_tick
    let nr :=
      if ¬ ctl.current_path.isEmpty ∧ ¬ m.planned_path.isEmpty then
        ctl.needs_replan || (conflictAhead ctl m && yieldDecision ctl m)
      else ctl.needs_replan
    { ctl with known_intents := ki, local_reservations := lr, needs_replan := nr }
  | MessageType.STATE_SYNC =>
    match m.full_state with
    | none => ctl
    | some fs =>
      let last_seq := amGet ctl.last_seen_sequence m.from_agent
      if m.sequence_number > last_seq then
        { ctl with
            local_reservations := fs.foldl (mergeReservation ctl m) ctl.local_reservations,
            last_seen_sequence := amSet ctl.last_seen_sequence m.from_agent m.sequence_number,
            last_state_received := current_tick }
      else ctl

/-- Phase 1, receive_and_update_local_state: each controller in order clears
its local table and drains the shared queue. -/
def receivePhase (current_tick : Int) (ctls : List AgentController) (q : NetQueue) :
    List AgentController × NetQueue :=
  ctls.foldl
    (fun (acc : List AgentController × NetQueue) ctl =>
      let ctl := { ctl with local_reservations := [] }
      let (msgs, q2) := netReceive acc.2 ctl.id current_tick
      (acc.1 ++ [msgs.foldl (processMessage current_tick) ctl], q2))
    ([], q)

/-- Phase 2, plan_agent_moves, for one controller (the per-controller tasks
are independent, so the parallel fan-out equals the sequential fold). -/
def planOne (w : World) (current_tick : Int) (ctl : AgentController) : AgentController :=
  match findAgent w ctl.id with
  | none => ctl
  | some ag =>
    if ag.at_goal || ag.collision_stopped then ctl
    else if ctl.needs_replan || ctl.current_path.isEmpty ||
        decide (ctl.current_path.length ≤ ctl.path_index) then
      let locals := clear_reservations ctl.id ctl.local_reservations
      let path := plan_path w ag.pos ag.goal locals ctl.id current_tick
      if ¬ path.isEmpty then
        { ctl with current_path := path, path_index := 0, needs_replan := false,
                   wait_counter := 0,
                   local_reservations := commit_reservations path ctl.id locals current_tick }
      else
        let wc := ctl.wait_counter + 1
        { ctl with local_reservations := locals, wait_counter := wc,
                   needs_replan := ctl.needs_replan || decide (MAX_WAIT ≤ wc) }
    else ctl

def planPhase (w : World) (current_tick : Int) (ctls : List AgentController) :
    List AgentController :=
  ctls.map (planOne w current_tick)

/-- Phase 3, broadcast_intents, for one controller: the path announcement
(or goal/stopped long-lived reservation), then the periodic state sync.
Returns the updated controller and the messages sent (each one three times,
REDUNDANCY_FACTOR).  When the controller has no world agent the C++ sends a
partly uninitialized message; that branch is unreachable here (controllers
are created from world agents) and is modelled as sending nothing. -/
def broadcastOne (w : World) (current_tick : Int) (ctl : AgentController) :
    AgentController × List Message :=
  match findAgent w ctl.id with
  | none => (ctl, [])
  | some ag =>
    let stopped := ag.at_goal || ag.collision_stopped || ctl.current_path.isEmpty
    let mtype := if stopped then
        (if ag.at_goal then MessageType.GOAL_REACHED else MessageType.PATH_ANNOUNCEMENT)
      else MessageType.PATH_ANNOUNCEMENT
    let nxt := if stopped then ag.pos
      else if decide (ctl.path_index < ctl.current_path.length) then
        ctl.current_path.getD ctl.path_index default
      else ctl.last_intent
    let pp := if stopped then List.replicate 200 ag.pos
      else if decide (ctl.path_index < ctl.current_path.length) then
        ctl.current_path.drop ctl.path_index
      else []
    let lc := ctl.local_clock + 1
    let vc := amSet ctl.vector_clock ctl.id lc
    let pmsg : Message :=
      { from_agent := ctl.id, mtype := mtype, next := nxt, timestamp := current_tick,
        planned_path := pp, vector_clock := vc }
    if current_tick % STATE_BROADCAST_INTERVAL == 0 ||
        decide (current_tick - ctl.last_state_received > STALE_STATE_THRESHOLD) then
      let lc2 := lc + 1
      let vc2 := amSet vc ctl.id lc2
      let smsg : Message :=
        { from_agent := ctl.id, mtype := MessageType.STATE_SYNC, timestamp := current_tick,
          sequence_number := current_tick.toNat, full_state := some ctl.local_reservations,
          vector_clock := vc2 }
      ({ ctl with local_clock := lc2, vector_clock := vc2,
                  last_state_broadcast := current_tick },
       [pmsg, pmsg, pmsg, smsg, smsg, smsg])
    else
      ({ ctl with local_clock := lc, vector_clock := vc }, [pmsg, pmsg, pmsg])

/-- Phase 3 over all controllers: stale known_intents are dropped first,
then every controller broadcasts in order. -/
def broadcastPhase (w : World) (current_tick : Int) (ctls : List AgentController)
    (q : NetQueue) : List AgentController × NetQueue :=
  (ctls.map (fun ctl =>
      { ctl with known_intents :=
          ctl.known_intents.filter (fun i => ¬ decide (i.timestamp + 5 < current_tick)) })).foldl
    (fun (acc : List AgentController × NetQueue) ctl =>
      let (ctl2, msgs) := broadcastOne w current_tick ctl
      (acc.1 ++ [ctl2], msgs.foldl netSend acc.2))
    ([], q)

/-- Phase 4, validate_pre_execution_conflicts.  current_tick_m is the
Simulation::current_tick_ member used as the emergency replan start time;
Simulation::run never updates it, so it stays 0 there. -/
def validatePhase (w : World) (current_tick_m : Int) (ctls : List AgentController) :
    List AgentController :=
  let intents : List (Cell × AgentId) := ctls.foldl
    (fun acc ctl =>
      match findAgent w ctl.id with
      | none => acc
      | some ag =>
        if ag.at_goal || ag.collision_stopped then acc
        else if decide (ctl.path_index < ctl.current_path.length) then
          acc ++ [(ctl.current_path.getD ctl.path_index default, ctl.id)]
        else acc)
    []
  let conflicted : List AgentId := intents.foldl
    (fun acc p => if (intents.filter (fun p2 => p2.1 == p.1)).length > 1
                  then acc ++ [p.2] else acc)
    []
  let ctls := ctls.map (fun ctl =>
    if conflicted.contains ctl.id then { ctl with needs_replan := true } else ctl)
  if ctls.any (fun ctl => ctl.needs_replan) then
    ctls.map (fun ctl =>
      if ¬ ctl.needs_replan then ctl
      else match findAgent w ctl.id with
        | none => ctl
        | some ag =>
          if ag.at_goal || ag.collision_stopped then ctl
          else
            let locals := clear_reservations ctl.id ctl.local_reservations
            let path := plan_path w ag.pos ag.goal locals ctl.id current_tick_m
            if ¬ path.isEmpty then
              { ctl with current_path := path, path_index := 0, needs_replan := false,
                         local_reservations :=
                           commit_reservations path ctl.id locals current_tick_m }
            else { ctl with local_reservations := locals })
  else ctls

/-- The per-agent effect of Simulation::resolve_deadlock on a backing-off
controller: clear current_path, reset path_index, set needs_replan, reset
stuck_counter, erase its own entries from its local table, and set
wait_counter to 3 + (i % 5) where i is the index in the sorted list. -/
def backedOff (c : AgentController) (i : Nat) : AgentController :=
  { c with current_path := [], path_index := 0, needs_replan := true,
           stuck_counter := 0,
           local_reservations := clear_reservations c.id c.local_reservations,
           wait_counter := 3 + ((i : Int) % 5) }

/-- One iteration of the back-off loop of Simulation::resolve_deadlock. -/
def backoffStep (sorted : List AgentId) (acc : World × List AgentController)
    (i : Nat) : World × List AgentController :=
  let agent_id := sorted.getD i 0
  if (acc.2.find? (fun c => c.id == agent_id)).isSome then
    (set_agent_collision_stopped acc.1 agent_id false,
     acc.2.map (fun c => if c.id == agent_id then backedOff c i else c))
  else acc

/-- simulation.cpp Simulation::resolve_deadlock: sort the deadlocked ids
ascending (std::sort on the uuid order; modelled by an ascending insertion
sort, which produces the same list for duplicate-free input), then the last
max(1, n/2) of them (loop indices size - k to size - 1) back off. -/
def resolve_deadlock (deadlocked : List AgentId) (w : World)
    (ctls : List AgentController) : World × List AgentController :=
  let sorted := List.insertionSort (fun a b => Nat.ble a b = true) deadlocked
  let n := sorted.length
  let k := Nat.max 1 (n / 2)
  (List.range' (n - k) k).foldl (backoffStep sorted) (w, ctls)

/-- The sorted index at which resolve_deadlock backs off the given agent,
when it does: the position of the agent in the ascending-sorted deadlocked
list, provided that position is within the trailing max(1, n/2) entries. -/
def backIndex (ids : List AgentId) (a : AgentId) : Option Nat :=
  let sorted := List.insertionSort (fun x y => Nat.ble x y = true) ids
  let n := sorted.length
  let k := Nat.max 1 (n / 2)
  (List.range' (n - k) k).find? (fun i => sorted.getD i 0 == a)

/-- Phase 5, detect_and_resolve_deadlocks: update stuck counters, collect
deadlocked agents, resolve if any. -/
def deadlockPhase (current_tick : Int) (w : World) (ctls : List AgentController) :
    World × List AgentController :=
  let step := ctls.foldl
    (fun (acc : List AgentController × List AgentId) ctl =>
      match findAgent w ctl.id with
      | none => (acc.1 ++ [ctl], acc.2)
      | some ag =>
        if ag.at_goal then (acc.1 ++ [ctl], acc.2)
        else if ctl.last_position == (⟨-1, -1⟩ : Cell) then
          (acc.1 ++ [{ ctl with last_position := ag.pos,
                                last_successful_move := current_tick,
                                stuck_counter := 0 }], acc.2)
        else if ctl.last_position == ag.pos then
          let sc := ctl.stuck_counter + 1
          let threshold : Int := if ag.collision_stopped then 3 else DEADLOCK_THRESHOLD
          ((acc.1 ++ [{ ctl with stuck_counter := sc }]),
           if decide (threshold ≤ sc) then acc.2 ++ [ctl.id] else acc.2)
        else
          (acc.1 ++ [{ ctl with last_position := ag.pos,
                                last_successful_move := current_tick,
                                stuck_counter := 0 }], acc.2))
    ([], [])
  if step.2.isEmpty then (w, step.1)
  else resolve_deadlock step.2 w step.1

/-- An intended move of phase 6. -/
structure IntendedMove where
  agent_id : AgentId
  from_pos : Cell
  to_pos : Cell
  controller_index : Nat
deriving DecidableEq, Repr

/-- Phase 6, execute_moves: collect intended moves, then write them all
into the world, bypassing the single-mover occupancy check. -/
def executePhase (w : World) (ctls : List AgentController) :
    World × List AgentController :=
  let idx := List.range ctls.length
  let moves : List IntendedMove := idx.foldl
    (fun acc i =>
      let ctl := ctls.getD i { id := 0 }
      match findAgent w ctl.id with
      | none => acc
      | some ag =>
        if ag.at_goal || ag.collision_stopped then acc
        else if decide (ctl.path_index < ctl.current_path.length) then
          acc ++ [⟨ctl.id, ag.pos, ctl.current_path.getD ctl.path_index default, i⟩]
        else acc)
    []
  moves.foldl
    (fun (acc : World × List AgentController) mv =>
      let (w, ctls) := acc
      match findAgent w mv.agent_id with
      | none => (w, ctls)
      | some _ =>
        if w.is_valid_cell mv.to_pos && (w.gridAt mv.to_pos != '#') then
          (updateAgent w mv.agent_id (fun a =>
             { a with pos := mv.to_pos,
                      at_goal := if mv.to_pos == a.goal then true else a.at_goal }),
           ctls.map (fun c =>
             if c.id == mv.agent_id then
               { c with path_index := c.path_index + 1, last_intent := mv.to_pos }
             else c))
        else
          (w, ctls.map (fun c =>
             if c.id == mv.agent_id then { c with needs_replan := true } else c)))
    (w, ctls)

/-- Phase 7, detect_and_handle_collisions: for every agent of a multiply
occupied cell, try displacement to the first free unoccupied cell among
E, W, S, N; otherwise latch collision_stopped.  Every colliding agent gets
needs_replan. -/
def collisionPhase (w : World) (ctls : List AgentController) :
    World × List AgentController :=
  let colliding := detect_collisions w
  colliding.foldl
    (fun (acc : World × List AgentController) agent_id =>
      let (w, ctls) := acc
      if (ctls.find? (fun c => c.id == agent_id)).isSome then
        match findAgent w agent_id with
        | none =>
          (w, ctls.map (fun c =>
            if c.id == agent_id then { c with needs_replan := true } else c))
        | some ag =>
          let candidates : List Cell :=
            [⟨ag.pos.x + 1, ag.pos.y⟩, ⟨ag.pos.x - 1, ag.pos.y⟩,
             ⟨ag.pos.x, ag.pos.y + 1⟩, ⟨ag.pos.x, ag.pos.y - 1⟩]
          let disp := candidates.find? (fun c =>
            w.is_valid_cell c && (w.gridAt c != '#') && ¬ check_collision w agent_id c)
          let w2 := match disp with
            | some c => (move_agent w agent_id c).2
            | none => set_agent_collision_stopped w agent_id true
          (w2, ctls.map (fun c =>
            if c.id == agent_id then { c with needs_replan := true } else c))
      else acc)
    (w, ctls)

/-- The simulator state threaded through the tick loop.  current_tick_m is
the Simulation::current_tick_ member (never updated by Simulation::run). -/
structure SimState where
  world : World
  ctls : List AgentController
  net : NetQueue
  current_tick_m : Int := 0

/-- simulation.cpp Simulation::step_internal: the seven phases in order
(trace recording has no effect on the state and is omitted). -/
def stepInternal (st : SimState) : SimState :=
  let tick := st.world.current_tick
  let (c1, q1) := receivePhase tick st.ctls st.net
  let c2 := planPhase st.world tick c1
  let (c3, q2) := broadcastPhase st.world tick c2 q1
  let c4 := validatePhase st.world st.current_tick_m c3
  let (w5, c5) := deadlockPhase tick st.world c4
  let (w6, c6) := executePhase w5 c5
  let (w7, c7) := collisionPhase w6 c6
  { world := w7, ctls := c7, net := q2, current_tick_m := st.current_tick_m }

/-- One loop iteration of Simulation::run: step_internal then advance_tick. -/
def stepTick (st : SimState) : SimState :=
  let st := stepInternal st
  { st with world := { st.world with current_tick := st.world.current_tick + 1 } }

/-- n iterations of the run loop (termination/max_ticks checks do not alter
the per-tick state and are irrelevant for the short runs evaluated here). -/
def runTicks (st : SimState) : Nat → SimState
  | 0 => st
  | n + 1 => runTicks (stepTick st) n

/-- Simulation::initialize: one controller per world agent, last_intent set
to the agent position. -/
def initState (w : World) : SimState :=
  { world := w,
    ctls := w.agents.map (fun a => { id := a.id, last_intent := a.pos : AgentController }),
    net := [] }

/-! ## Concrete configurations used by the theorems below -/

/-- A 5 x 4 map (free cells (0,2),(1,2),(2,2),(3,2),(3,1)) with four agents
with pairwise distinct starts and pairwise distinct goals:
agent 0: (2,2) to (2,2); agent 1: (3,2) to (3,2); agent 2: (0,2) to (1,2);
agent 3: (1,2) to (3,1).  Within the spec bounds: 4 agents, 5 x 4 grid,
drop probability 0. -/
def worldFour : World :=
  { width := 5, height := 4,
    grid := ["#####".toList, "###.#".toList, "....#".toList, "#####".toList],
    agents := [⟨0, ⟨2,2⟩, ⟨2,2⟩, false, false⟩, ⟨1, ⟨3,2⟩, ⟨3,2⟩, false, false⟩,
               ⟨2, ⟨0,2⟩, ⟨1,2⟩, false, false⟩, ⟨3, ⟨1,2⟩, ⟨3,1⟩, false, false⟩] }

/-- A 6 x 3 corridor with two agents: agent 0 starts on its goal (2,1);
agent 1 goes (1,1) to (4,1) straight through it. -/
def worldCorridor : World :=
  { width := 6, height := 3,
    grid := ["######".toList, "#....#".toList, "######".toList],
    agents := [⟨0, ⟨2,1⟩, ⟨2,1⟩, false, false⟩, ⟨1, ⟨1,1⟩, ⟨4,1⟩, false, false⟩] }

/-- A 2 x 1 strip with no agents, used for planner inputs. -/
def worldStrip : World :=
  { width := 2, height := 1, grid := ["..".toList], agents := [] }

/-- A 3 x 1 strip with one agent, used for move_agent and broadcast inputs. -/
def worldThree : World :=
  { width := 3, height := 1, grid := ["...".toList],
    agents := [⟨7, ⟨0,0⟩, ⟨2,0⟩, false, false⟩] }

/-- A message from agent 1 sent at tick 0. -/
def msgOne : Message :=
  { from_agent := 1, next := ⟨1,0⟩, timestamp := 0, planned_path := [⟨1,0⟩] }

/-- A controller of agent 7 with a nonempty path and no pending replan. -/
def ctlSeven : AgentController :=
  { id := 7, current_path := [⟨0,0⟩, ⟨1,0⟩], path_index := 0, last_intent := ⟨0,0⟩,
    needs_replan := false, stuck_counter := 6,
    local_reservations := [⟨⟨0,0,0⟩, 7⟩] }

instance : Inhabited AgentState := ⟨⟨0, ⟨0,0⟩, ⟨0,0⟩, false, false⟩⟩

/-! # Theorems -/

/-- C1.  The no-collision invariant fails on the code: on worldFour (4
agents with pairwise distinct starts and pairwise distinct goals, a 5 x 4
grid, drop probability 0), at the end of tick 1 agents 0 and 3 both occupy
cell (2,2), and the collision audit reports them.  (Agent 2 first drains the
whole shared broadcast queue is irrelevant here; agent 0 does, and agents 2
and 3 therefore receive nothing, march blindly, and the displacement of both
collided agents fails because the two adjacent free cells are occupied.) -/
theorem collision_in_bounds_run :
    worldFour.agents.length ≤ 8 ∧ worldFour.width ≤ 20 ∧ worldFour.height ≤ 20 ∧
    (worldFour.agents.map (fun a => a.pos)).Nodup ∧
    (worldFour.agents.map (fun a => a.goal)).Nodup ∧
    ((runTicks (initState worldFour) 2).world.agents.map (fun a => (a.id, a.pos))) =
      [(0, ⟨2,2⟩), (1, ⟨3,2⟩), (2, ⟨1,2⟩), (3, ⟨2,2⟩)] ∧
    detect_collisions (runTicks (initState worldFour) 2).world = [0, 3] := by
  decide

/-- C5.  Goal latching fails on the code: on worldCorridor, agent 0 is at
its goal (2,1) with at_goal latched at the end of tick 0 (still so after
tick 1), but during tick 1 agent 1 is force-moved onto (2,1) and the
collision handler displaces agent 0 to (3,1) while leaving at_goal true:
after tick 1 the agent has at_goal = true and pos different from goal. -/
theorem goal_latch_broken_run :
    (((runTicks (initState worldCorridor) 1).world.agents.getD 0 default).at_goal = true ∧
     ((runTicks (initState worldCorridor) 1).world.agents.getD 0 default).pos = ⟨2,1⟩) ∧
    (((runTicks (initState worldCorridor) 2).world.agents.getD 0 default).at_goal = true ∧
     ((runTicks (initState worldCorridor) 2).world.agents.getD 0 default).pos = ⟨3,1⟩ ∧
     ((runTicks (initState worldCorridor) 2).world.agents.getD 0 default).goal = ⟨2,1⟩) := by
  decide

/-- C2.  The network does not deliver a sent message to every peer: the
single shared broadcast queue is consumed by whoever calls receive first
once the message is due.  Here message msgOne from agent 1 (sent at tick 0,
delivered at tick 1, not dropped) is: destroyed for everyone when the author
itself calls receive first; and when instead peer 2 calls receive first it
gets the message but the queue is then empty, so peer 3 can never receive
it. -/
theorem netsim_receive_consumes_broadcast :
    netSend (∅ : NetQueue) msgOne = [(msgOne, 1)] ∧
    netReceive [(msgOne, 1)] 1 1 = ([], []) ∧
    netReceive [(msgOne, 1)] 2 1 = ([msgOne], []) ∧
    netReceive ([] : NetQueue) 3 1 = ([], []) := by
  decide

/-- C9 counterexample.  At tick 15 with last_state_received = 0 the claimed
condition (tick - last_state_received at least 15) holds and tick is not a
multiple of 10, yet the code (strict comparison) sends no STATE_SYNC and
does not update last_state_broadcast. -/
theorem state_sync_threshold_counterexample :
    (15 : Int) % STATE_BROADCAST_INTERVAL ≠ 0 ∧
    (15 : Int) - ctlSeven.last_state_received ≥ STALE_STATE_THRESHOLD ∧
    ((broadcastOne worldThree 15 ctlSeven).2.filter
        (fun m => m.mtype == MessageType.STATE_SYNC)) = [] ∧
    (broadcastOne worldThree 15 ctlSeven).1.last_state_broadcast ≠ 15 := by
  decide

/-- C9 (amended).  During the broadcast phase a controller with a live world
agent sends a STATE_SYNC carrying a copy of its local_reservations, with
redundancy 3 and last_state_broadcast updated to the tick, exactly when the
tick is a multiple of STATE_BROADCAST_INTERVAL = 10 or
tick - last_state_received is strictly greater than STALE_STATE_THRESHOLD
= 15 (not at-least-15 as claimed); otherwise no STATE_SYNC is sent and
last_state_broadcast is unchanged. -/
theorem state_sync_iff_amended (w : World) (t : Int) (ctl : AgentController)
    (hfound : (findAgent w ctl.id).isSome = true) :
    if t % STATE_BROADCAST_INTERVAL = 0 ∨
        STALE_STATE_THRESHOLD < t - ctl.last_state_received then
      ((broadcastOne w t ctl).2.filter
          (fun m => m.mtype == MessageType.STATE_SYNC)).length = 3 ∧
      (∀ m ∈ (broadcastOne w t ctl).2, m.mtype = MessageType.STATE_SYNC →
         m.full_state = some ctl.local_reservations ∧ m.from_agent = ctl.id ∧
         m.timestamp = t) ∧
      (broadcastOne w t ctl).1.last_state_broadcast = t
    else
      ((broadcastOne w t ctl).2.filter
          (fun m => m.mtype == MessageType.STATE_SYNC)) = [] ∧
      (broadcastOne w t ctl).1.last_state_broadcast = ctl.last_state_broadcast := by
  rcases Option.isSome_iff_exists.mp hfound with ⟨ag, hag⟩
  have e1 : (MessageType.GOAL_REACHED == MessageType.STATE_SYNC) = false := rfl
  have e2 : (MessageType.PATH_ANNOUNCEMENT == MessageType.STATE_SYNC) = false := rfl
  have e3 : (MessageType.STATE_SYNC == MessageType.STATE_SYNC) = true := rfl
  have hb : (t % STATE_BROADCAST_INTERVAL == 0 ||
      decide (t - ctl.last_state_received > STALE_STATE_THRESHOLD)) = true ↔
      (t % STATE_BROADCAST_INTERVAL = 0 ∨
        STALE_STATE_THRESHOLD < t - ctl.last_state_received) := by
    simp [gt_iff_lt]
  have hmt : ∀ b1 b2 : Bool,
      ((if (b1 || b2 || ctl.current_path.isEmpty) = true then
          (if b1 = true then MessageType.GOAL_REACHED else MessageType.PATH_ANNOUNCEMENT)
        else MessageType.PATH_ANNOUNCEMENT) == MessageType.STATE_SYNC) = false := by
    intro b1 b2
    by_cases h1 : (b1 || b2 || ctl.current_path.isEmpty) = true
    · rw [if_pos h1]
      by_cases h2 : b1 = true
      · rw [if_pos h2]; exact e1
      · rw [if_neg h2]; exact e2
    · rw [if_neg h1]; exact e2
  by_cases hc : t % STATE_BROADCAST_INTERVAL = 0 ∨
      STALE_STATE_THRESHOLD < t - ctl.last_state_received
  · rw [if_pos hc]
    simp only [broadcastOne, hag]
    rw [if_pos (hb.mpr hc)]
    refine ⟨?_, ?_, rfl⟩
    · simp only [List.filter, hmt ag.at_goal ag.collision_stopped, e3]
      rfl
    · intro m hm hsync
      simp only [List.mem_cons, List.not_mem_nil, or_false] at hm
      rcases hm with h | h | h | h | h | h <;> subst h <;>
        first
        | (exact absurd hsync (by
            have h5 := hmt ag.at_goal ag.collision_stopped
            rw [beq_eq_false_iff_ne] at h5
            exact h5))
        | exact ⟨rfl, rfl, rfl⟩
  · rw [if_neg hc]
    simp only [broadcastOne, hag]
    have hb2 : ¬ ((t % STATE_BROADCAST_INTERVAL == 0 ||
        decide (t - ctl.last_state_received > STALE_STATE_THRESHOLD)) = true) := by
      intro h
      exact absurd (hb.mp h) hc
    rw [if_neg hb2]
    refine ⟨?_, rfl⟩
    simp only [List.filter, hmt ag.at_goal ag.collision_stopped]

/-- C9 witness: at tick 20 (a multiple of 10) controller ctlSeven in
worldThree sends exactly three STATE_SYNC copies carrying its table and
records the broadcast tick. -/
theorem state_sync_iff_amended_witness :
    ((broadcastOne worldThree 20 ctlSeven).2.filter
        (fun m => m.mtype == MessageType.STATE_SYNC)).length = 3 ∧
    (broadcastOne worldThree 20 ctlSeven).1.last_state_broadcast = 20 := by
  have h := state_sync_iff_amended worldThree 20 ctlSeven (by decide)
  rw [if_pos (by decide)] at h
  exact ⟨h.1, h.2.2⟩

theorem alookup_mem {β : Type} (l : List (SKey × β)) (k : SKey) (v : β)
    (h : alookup l k = some v) : (k, v) ∈ l := by
  unfold alookup at h
  cases hf : List.find? (fun p => p.1 == k) l with
  | none => rw [hf] at h; exact absurd h (by simp)
  | some p =>
    rw [hf] at h
    have hp := List.mem_of_find?_eq_some hf
    have hk0 := List.find?_some hf
    have hk : p.1 = k := by simpa using hk0
    have hv : p.2 = v := by injection h
    rw [← hk, ← hv]
    exact hp

theorem alookup_isSome {β : Type} (l : List (SKey × β)) (k : SKey)
    (h : k ∈ l.map (fun p => p.1)) : (alookup l k).isSome = true := by
  unfold alookup
  rcases List.mem_map.mp h with ⟨p, hp, hk⟩
  cases hf : List.find? (fun p => p.1 == k) l with
  | some q => rfl
  | none => exact absurd (List.find?_eq_none.mp hf p hp) (by simp [hk])

theorem alookup_none {β : Type} (l : List (SKey × β)) (k : SKey)
    (h : k ∉ l.map (fun p => p.1)) : alookup l k = none := by
  cases hf : alookup l k with
  | none => rfl
  | some v => exact absurd (List.mem_map.mpr ⟨(k, v), alookup_mem l k v hf, rfl⟩) h

theorem aset_of_not_mem {β : Type} (l : List (SKey × β)) (k : SKey) (v : β)
    (h : k ∉ l.map (fun p => p.1)) : aset l k v = (k, v) :: l := by
  unfold aset
  cases hf : List.find? (fun p => p.1 == k) l with
  | none => rfl
  | some p =>
    have hp := List.mem_of_find?_eq_some hf
    have hk0 := List.find?_some hf
    have hk : p.1 = k := by simpa using hk0
    exact absurd (List.mem_map.mpr ⟨p, hp, hk⟩) h

theorem popMin_eq_none (l : List SNode) : popMin l = none ↔ l = [] := by
  cases l with
  | nil => simp [popMin]
  | cons n ns =>
    simp only [popMin]
    cases popMin ns with
    | none => simp
    | some p =>
      by_cases hf : n.f ≤ p.1.f <;> simp [hf]

theorem popMin_spec : ∀ (l : List SNode) (m : SNode) (rest : List SNode),
    popMin l = some (m, rest) →
    m ∈ l ∧ (∀ x ∈ rest, x ∈ l) ∧ rest.length + 1 = l.length := by
  intro l
  induction l with
  | nil => intro m rest h; exact absurd h (by simp [popMin])
  | cons n ns ih =>
    intro m rest h
    cases hp : popMin ns with
    | none =>
      have hns : ns = [] := (popMin_eq_none ns).mp hp
      subst hns
      simp only [popMin, Option.some.injEq, Prod.mk.injEq] at h
      obtain ⟨rfl, rfl⟩ := h
      exact ⟨List.mem_cons_self n [], by simp, rfl⟩
    | some p =>
      obtain ⟨m2, rest2⟩ := p
      obtain ⟨hm2, hsub2, hlen2⟩ := ih m2 rest2 hp
      simp only [popMin, hp] at h
      by_cases hf : n.f ≤ m2.f
      · rw [if_pos hf] at h
        simp only [Option.some.injEq, Prod.mk.injEq] at h
        obtain ⟨rfl, rfl⟩ := h
        exact ⟨List.mem_cons_self n ns, fun x hx => List.mem_cons_of_mem n hx, rfl⟩
      · rw [if_neg hf] at h
        simp only [Option.some.injEq, Prod.mk.injEq] at h
        obtain ⟨rfl, rfl⟩ := h
        refine ⟨List.mem_cons_of_mem n hm2, ?_, by simp [← hlen2]⟩
        intro x hx
        rcases List.mem_cons.mp hx with rfl | hx
        · exact List.mem_cons_self x ns
        · exact List.mem_cons_of_mem n (hsub2 x hx)

theorem free_cell_valid (w : World) (c : Cell) (h : w.is_free_cell c = true) :
    w.is_valid_cell c = true := by
  unfold World.is_free_cell at h
  simp only [Bool.and_eq_true] at h
  exact h.1

theorem valid_cell_bounds (w : World) (c : Cell) (h : w.is_valid_cell c = true) :
    0 ≤ c.x ∧ c.x < w.width ∧ 0 ≤ c.y ∧ c.y < w.height := by
  unfold World.is_valid_cell at h
  simp only [Bool.and_eq_true, decide_eq_true_eq] at h
  tauto

theorem neighbors_free (w : World) (c nc : Cell) (hc : w.is_free_cell c = true)
    (h : nc ∈ get_neighbors w c) : w.is_free_cell nc = true := by
  unfold get_neighbors at h
  rcases List.mem_append.mp h with h | h
  · have h2 := List.of_mem_filter h
    simp only [Bool.and_eq_true] at h2
    exact h2.2
  · have : nc = c := by simpa using h
    rw [this]
    exact hc

theorem neighbors_legal (w : World) (c nc : Cell) (h : nc ∈ get_neighbors w c) :
    isLegalStep c nc = true := by
  unfold get_neighbors at h
  rcases List.mem_append.mp h with h | h
  · have hm := List.mem_of_mem_filter h
    simp only [List.mem_cons, List.not_mem_nil, or_false] at hm
    rcases hm with rfl | rfl | rfl | rfl <;>
      · simp only [isLegalStep, Bool.or_eq_true, beq_iff_eq]
        right
        omega
  · have : nc = c := by simpa using h
    rw [this]
    simp [isLegalStep]

theorem expandOne_spec (ctx : AstarCtx) (cur : SNode) (st : SearchState) (nc : Cell)
    (hinv : StInv ctx st)
    (hcur : (cur.cell, cur.time) ∈ st.gs.map (fun p => p.1))
    (hcur2 : (cur.cell, cur.time) = (ctx.start, ctx.start_time) ∨
      (cur.cell, cur.time) ∈ st.came.map (fun p => p.1))
    (hmax : cur.time < ctx.maxTime)
    (hnc : nc ∈ get_neighbors ctx.world cur.cell) :
    StInv ctx (expandOne ctx cur st nc) ∧
    ((expandOne ctx cur st nc).openSet.length + st.gs.length =
      st.openSet.length + (expandOne ctx cur st nc).gs.length) ∧
    (∀ k2, k2 ∈ st.gs.map (fun p => p.1) →
      k2 ∈ (expandOne ctx cur st nc).gs.map (fun p => p.1)) ∧
    (∀ k2, k2 ∈ st.came.map (fun p => p.1) →
      k2 ∈ (expandOne ctx cur st nc).came.map (fun p => p.1)) := by
  obtain ⟨⟨hnd, hent⟩, hopen, hcame, hck⟩ := hinv
  have hcv : (alookup st.gs (cur.cell, cur.time)).isSome = true :=
    alookup_isSome _ _ hcur
  obtain ⟨v, hv⟩ := Option.isSome_iff_exists.mp hcv
  have hvmem := alookup_mem _ _ _ hv
  obtain ⟨hfreecur, ht0cur, hmaxcur, hvval⟩ := hent _ hvmem
  dsimp only at hfreecur ht0cur hmaxcur hvval
  unfold expandOne
  by_cases hres : is_reserved ctx.resv nc (cur.time + 1) ctx.agent_id = true
  · rw [if_pos hres]
    exact ⟨⟨⟨hnd, hent⟩, hopen, hcame, hck⟩, by omega, fun k2 h => h, fun k2 h => h⟩
  · rw [if_neg hres]
    by_cases hedge : (decide (nc ≠ cur.cell) &&
        edge_collision ctx.resv cur.cell nc cur.time ctx.agent_id) = true
    · rw [if_pos hedge]
      exact ⟨⟨⟨hnd, hent⟩, hopen, hcame, hck⟩, by omega, fun k2 h => h, fun k2 h => h⟩
    · rw [if_neg hedge]
      cases hl : alookup st.gs (nc, cur.time + 1) with
      | some old =>
        have holdmem := alookup_mem _ _ _ hl
        have hov := (hent _ holdmem).2.2.2
        dsimp only at hov
        rw [hv]
        simp only [Option.getD_some]
        rw [if_neg (by omega : ¬ (v + 1 < old))]
        exact ⟨⟨⟨hnd, hent⟩, hopen, hcame, hck⟩, by omega, fun k2 h => h, fun k2 h => h⟩
      | none =>
        have hkn : (nc, cur.time + 1) ∉ st.gs.map (fun p => p.1) := by
          intro hmem
          have := alookup_isSome st.gs _ hmem
          rw [hl] at this
          exact absurd this (by simp)
        have hkncame : (nc, cur.time + 1) ∉ st.came.map (fun p => p.1) := by
          intro hmem
          rcases List.mem_map.mp hmem with ⟨q, hq, hq1⟩
          exact hkn (hq1 ▸ hck q hq)
        rw [hv]
        simp only [Option.getD_some]
        rw [aset_of_not_mem st.gs _ _ hkn, aset_of_not_mem st.came _ _ hkncame]
        have hfree : ctx.world.is_free_cell nc = true := neighbors_free _ _ _ hfreecur hnc
        refine ⟨⟨⟨?_, ?_⟩, ?_, ?_, ?_⟩, ?_, ?_, ?_⟩
        · exact List.nodup_cons.mpr ⟨hkn, hnd⟩
        · intro p hp
          rcases List.mem_cons.mp hp with rfl | hp
          · dsimp only
            refine ⟨hfree, by omega, by omega, by omega⟩
          · exact hent p hp
        · intro n hn
          rcases List.mem_append.mp hn with hn | hn
          · obtain ⟨h1, h2⟩ := hopen n hn
            refine ⟨List.mem_cons_of_mem _ h1, ?_⟩
            rcases h2 with h2 | h2
            · exact Or.inl h2
            · exact Or.inr (List.mem_cons_of_mem _ h2)
          · have hne : n = ⟨nc, cur.time + 1, v + 1 + heuristic nc ctx.goal⟩ := by
              simpa using hn
            subst hne
            exact ⟨List.mem_cons_self _ _, Or.inr (List.mem_cons_self _ _)⟩
        · intro q hq
          rcases List.mem_cons.mp hq with rfl | hq
          · refine ⟨⟨rfl, ?_, ?_, ?_, ?_⟩, ?_,
              by show ctx.start_time < cur.time + 1; omega⟩
            · exact neighbors_legal _ _ _ hnc
            · exact hfree
            · show is_reserved ctx.resv nc (cur.time + 1) ctx.agent_id = false
              rcases Bool.eq_false_or_eq_true
                (is_reserved ctx.resv nc (cur.time + 1) ctx.agent_id) with hrb | hrb
              · exact absurd hrb hres
              · exact hrb
            · intro hne2
              have hne3 : nc ≠ cur.cell := hne2
              show edge_collision ctx.resv cur.cell nc
                (cur.time + 1 - 1) ctx.agent_id = false
              rw [show (cur.time + 1 - 1 : Int) = cur.time from by omega]
              rcases Bool.eq_false_or_eq_true
                (edge_collision ctx.resv cur.cell nc cur.time ctx.agent_id) with heb | heb
              · refine absurd ?_ hedge
                rw [heb]
                simp [hne3]
              · exact heb
            · rcases hcur2 with h2 | h2
              · exact Or.inl h2
              · exact Or.inr (List.mem_cons_of_mem _ h2)
          · obtain ⟨h1, h2, h3⟩ := hcame q hq
            refine ⟨h1, ?_, h3⟩
            rcases h2 with h2 | h2
            · exact Or.inl h2
            · exact Or.inr (List.mem_cons_of_mem _ h2)
        · intro q hq
          rcases List.mem_cons.mp hq with rfl | hq
          · exact List.mem_cons_self _ _
          · exact List.mem_cons_of_mem _ (hck q hq)
        · show (st.openSet ++ _).length + st.gs.length =
            st.openSet.length + ((_ :: st.gs).length : Nat)
          simp only [List.length_append, List.length_cons, List.length_nil]
          omega
        · intro k2 h
          exact List.mem_cons_of_mem _ h
        · intro k2 h
          exact List.mem_cons_of_mem _ h

theorem reconstructAux_spec (ctx : AstarCtx) (came : List (SKey × SKey))
    (hci : CameInv ctx came) :
    ∀ (fuel : Nat) (k : SKey),
      (k = (ctx.start, ctx.start_time) ∨ k ∈ came.map (fun p => p.1)) →
      (k.2 - ctx.start_time).toNat < fuel →
      (ctx.start :: reconstructAux came fuel k).length =
        (k.2 - ctx.start_time).toNat + 1 ∧
      (ctx.start :: reconstructAux came fuel k).getLast? = some k.1 ∧
      PathOK ctx (ctx.start :: reconstructAux came fuel k) := by
  intro fuel
  induction fuel with
  | zero => intro k _ h; omega
  | succ fuel ih =>
    intro k hk hfuel
    rcases hk with rfl | hk
    · have hnone : alookup came (ctx.start, ctx.start_time) = none := by
        apply alookup_none
        intro hmem
        rcases List.mem_map.mp hmem with ⟨q, hq, hq1⟩
        have h2 := (hci q hq).2.2
        rw [hq1] at h2
        exact absurd h2 (lt_irrefl _)
      rw [show reconstructAux came (fuel + 1) (ctx.start, ctx.start_time) = [] from by
        unfold reconstructAux; rw [hnone]]
      refine ⟨by simp, by simp, ?_⟩
      intro i hi
      simp at hi
    · have hsome : (alookup came k).isSome = true := alookup_isSome came k hk
      obtain ⟨prev, hprev⟩ := Option.isSome_iff_exists.mp hsome
      have hqmem := alookup_mem came k prev hprev
      obtain ⟨⟨htime, hcells⟩, hlink, ht⟩ := hci (k, prev) hqmem
      dsimp only at htime hcells ht hlink
      have ht0prev : ctx.start_time ≤ prev.2 := by
        rcases hlink with heq | hlk
        · rw [heq]
        · rcases List.mem_map.mp hlk with ⟨q, hq, hq1⟩
          have h2 := (hci q hq).2.2
          rw [hq1] at h2
          exact le_of_lt h2
      have hfuel2 : (prev.2 - ctx.start_time).toNat < fuel := by omega
      obtain ⟨hlen, hlast, hpath⟩ := ih prev hlink hfuel2
      rw [show reconstructAux came (fuel + 1) k =
          reconstructAux came fuel prev ++ [k.1] from by
        simp only [reconstructAux, hprev]]
      rw [show ctx.start :: (reconstructAux came fuel prev ++ [k.1]) =
          (ctx.start :: reconstructAux came fuel prev) ++ [k.1] from rfl]
      refine ⟨?_, List.getLast?_concat _, ?_⟩
      · rw [List.length_append, hlen]
        simp only [List.length_singleton]
        omega
      · intro i hi
        rw [List.length_append, hlen, List.length_singleton] at hi
        by_cases hilt : i + 1 < (ctx.start :: reconstructAux came fuel prev).length
        · rw [List.getD_append _ _ _ _ (by omega : i <
              (ctx.start :: reconstructAux came fuel prev).length),
            List.getD_append _ _ _ _ hilt]
          exact hpath i hilt
        · have hieq : i + 1 = (ctx.start :: reconstructAux came fuel prev).length := by
            rw [hlen] at hilt ⊢
            omega
          have hiv : (i : Int) = prev.2 - ctx.start_time := by
            rw [hlen] at hieq
            omega
          rw [List.getD_append _ _ _ _ (by omega : i <
              (ctx.start :: reconstructAux came fuel prev).length)]
          rw [List.getD_append_right _ _ _ _ (by omega :
              (ctx.start :: reconstructAux came fuel prev).length ≤ i + 1)]
          rw [hieq]
          simp only [Nat.sub_self, List.getD_cons_zero]
          have hgetlast : (ctx.start :: reconstructAux came fuel prev).getD i default =
              prev.1 := by
            have h3 : (ctx.start :: reconstructAux came fuel prev).getLast? =
                (ctx.start :: reconstructAux came fuel prev).get?
                  ((ctx.start :: reconstructAux came fuel prev).length - 1) :=
              List.getLast?_eq_get? _
            rw [hlast] at h3
            show ((ctx.start :: reconstructAux came fuel prev).get? i).getD default = _
            rw [show i = (ctx.start :: reconstructAux came fuel prev).length - 1 from by
              omega]
            rw [← h3]
            rfl
          rw [hgetlast]
          have htv : ctx.start_time + (i : Int) + 1 = k.2 := by omega
          rw [htv]
          exact hcells

theorem expand_fold_spec (ctx : AstarCtx) (cur : SNode) :
    ∀ (l : List Cell) (st : SearchState),
      (∀ c ∈ l, c ∈ get_neighbors ctx.world cur.cell) →
      StInv ctx st →
      (cur.cell, cur.time) ∈ st.gs.map (fun p => p.1) →
      ((cur.cell, cur.time) = (ctx.start, ctx.start_time) ∨
        (cur.cell, cur.time) ∈ st.came.map (fun p => p.1)) →
      cur.time < ctx.maxTime →
      StInv ctx (l.foldl (expandOne ctx cur) st) ∧
      ((l.foldl (expandOne ctx cur) st).openSet.length + st.gs.length =
        st.openSet.length + (l.foldl (expandOne ctx cur) st).gs.length) := by
  intro l
  induction l with
  | nil => intro st _ hinv _ _ _; exact ⟨hinv, rfl⟩
  | cons c l ih =>
    intro st hl hinv hcur hcur2 hmax
    obtain ⟨hinv1, heq1, hg1, hc1⟩ :=
      expandOne_spec ctx cur st c hinv hcur hcur2 hmax (hl c (List.mem_cons_self _ _))
    obtain ⟨hinv2, heq2⟩ :=
      ih (expandOne ctx cur st c) (fun x hx => hl x (List.mem_cons_of_mem _ hx))
        hinv1 (hg1 _ hcur) (hcur2.imp id (hc1 _)) hmax
    refine ⟨?_, ?_⟩
    · show StInv ctx (l.foldl (expandOne ctx cur) (expandOne ctx cur st c))
      exact hinv2
    · show (l.foldl (expandOne ctx cur) (expandOne ctx cur st c)).openSet.length +
        st.gs.length = st.openSet.length +
        (l.foldl (expandOne ctx cur) (expandOne ctx cur st c)).gs.length
      omega

theorem expand_spec (ctx : AstarCtx) (cur : SNode) (st : SearchState)
    (hinv : StInv ctx st)
    (hcur : (cur.cell, cur.time) ∈ st.gs.map (fun p => p.1))
    (hcur2 : (cur.cell, cur.time) = (ctx.start, ctx.start_time) ∨
      (cur.cell, cur.time) ∈ st.came.map (fun p => p.1))
    (hmax : cur.time < ctx.maxTime) :
    StInv ctx (expand ctx cur st) ∧
    ((expand ctx cur st).openSet.length + st.gs.length =
      st.openSet.length + (expand ctx cur st).gs.length) :=
  expand_fold_spec ctx cur (get_neighbors ctx.world cur.cell) st
    (fun _ hc => hc) hinv hcur hcur2 hmax

theorem gs_length_le (ctx : AstarCtx) (st : SearchState) (hinv : StInv ctx st) :
    st.gs.length ≤ SBound ctx := by
  obtain ⟨⟨hnd, hent⟩, _, _, _⟩ := hinv
  have he : Function.Injective (fun k : SKey => ((k.1.x, k.1.y), k.2)) := by
    intro a b h
    simp only [Prod.mk.injEq] at h
    obtain ⟨⟨hx, hy⟩, ht⟩ := h
    obtain ⟨⟨ax, ay⟩, az⟩ := a
    obtain ⟨⟨bx, by2⟩, bz⟩ := b
    simp only at hx hy ht
    rw [hx, hy, ht]
  have hLnd : ((st.gs.map (fun p => p.1)).map
      (fun k : SKey => ((k.1.x, k.1.y), k.2))).Nodup := hnd.map he
  have hsub : ((st.gs.map (fun p => p.1)).map
      (fun k : SKey => ((k.1.x, k.1.y), k.2))).toFinset ⊆
      ((Finset.Icc (0 : Int) (ctx.world.width - 1) ×ˢ
        Finset.Icc (0 : Int) (ctx.world.height - 1)) ×ˢ
        Finset.Icc ctx.start_time ctx.maxTime) := by
    intro z hz
    rcases List.mem_map.mp (List.mem_toFinset.mp hz) with ⟨k, hk, hkz⟩
    rcases List.mem_map.mp hk with ⟨p, hp, hpk⟩
    obtain ⟨hfree, ht0, htm, _⟩ := hent p hp
    obtain ⟨hx0, hxw, hy0, hyh⟩ := valid_cell_bounds _ _ (free_cell_valid _ _ hfree)
    subst hkz
    subst hpk
    simp only [Finset.mem_product, Finset.mem_Icc]
    exact ⟨⟨⟨hx0, by omega⟩, ⟨hy0, by omega⟩⟩, ht0, htm⟩
  have hcard := Finset.card_le_card hsub
  rw [List.toFinset_card_of_nodup hLnd] at hcard
  rw [List.length_map, List.length_map] at hcard
  rw [Finset.card_product, Finset.card_product, Int.card_Icc, Int.card_Icc,
    Int.card_Icc] at hcard
  have h1 : (ctx.world.width - 1 + 1 - 0).toNat = ctx.world.width.toNat := by omega
  have h2 : (ctx.world.height - 1 + 1 - 0).toNat = ctx.world.height.toNat := by omega
  rw [h1, h2] at hcard
  have h3 : (ctx.maxTime + 1 - ctx.start_time).toNat ≤
      (ctx.world.width * ctx.world.height * 2).toNat + 1 := by
    show (ctx.start_time + ctx.world.width * ctx.world.height * 2 + 1 -
      ctx.start_time).toNat ≤ (ctx.world.width * ctx.world.height * 2).toNat + 1
    omega
  calc st.gs.length ≤ ctx.world.width.toNat * ctx.world.height.toNat *
        (ctx.maxTime + 1 - ctx.start_time).toNat := hcard
    _ ≤ ctx.world.width.toNat * ctx.world.height.toNat *
        ((ctx.world.width * ctx.world.height * 2).toNat + 1) :=
      Nat.mul_le_mul_left _ h3
    _ = SBound ctx := rfl

theorem StInv_sub_open (ctx : AstarCtx) (st : SearchState) (rest : List SNode)
    (hinv : StInv ctx st) (hsub : ∀ n ∈ rest, n ∈ st.openSet) :
    StInv ctx { st with openSet := rest } := by
  obtain ⟨hgs, hopen, hcame, hck⟩ := hinv
  exact ⟨hgs, fun n hn => hopen n (hsub n hn), hcame, hck⟩

theorem initSearch_StInv (ctx : AstarCtx)
    (hfree : ctx.world.is_free_cell ctx.start = true) :
    StInv ctx (initSearch ctx) := by
  have hwh : 0 < ctx.world.width ∧ 0 < ctx.world.height := by
    obtain ⟨hx0, hxw, hy0, hyh⟩ :=
      valid_cell_bounds _ _ (free_cell_valid _ _ hfree)
    exact ⟨by omega, by omega⟩
  have hA : 0 ≤ ctx.world.width * ctx.world.height * 2 := by
    have := mul_pos (mul_pos hwh.1 hwh.2) (by omega : (0 : Int) < 2)
    omega
  refine ⟨⟨List.nodup_singleton _, ?_⟩, ?_, ?_, ?_⟩
  · intro p hp
    rcases List.mem_singleton.mp hp with rfl
    dsimp only
    refine ⟨hfree, le_refl _, ?_, by omega⟩
    show ctx.start_time ≤ ctx.start_time + ctx.world.width * ctx.world.height * 2
    omega
  · intro n hn
    rcases List.mem_singleton.mp hn with rfl
    exact ⟨List.mem_singleton.mpr rfl, Or.inl rfl⟩
  · intro q hq
    exact absurd hq (List.not_mem_nil q)
  · intro q hq
    exact absurd hq (List.not_mem_nil q)

theorem astarLoop_sound (ctx : AstarCtx) :
    ∀ (fuel : Nat) (st : SearchState) (p : List Cell),
      StInv ctx st → astarLoop ctx fuel st = some p →
      p = [] ∨ ∃ tg : Int, ctx.start_time ≤ tg ∧ tg ≤ ctx.maxTime ∧
        p.length = (tg - ctx.start_time).toNat + 1 ∧
        p.getD 0 default = ctx.start ∧ p.getLast? = some ctx.goal ∧ PathOK ctx p := by
  intro fuel
  induction fuel with
  | zero => intro st p _ h; exact absurd h (by simp [astarLoop])
  | succ fuel ih =>
    intro st p hinv h
    cases hpop : popMin st.openSet with
    | none =>
      simp only [astarLoop, hpop] at h
      exact Or.inl (Option.some.inj h).symm
    | some pr =>
      obtain ⟨cur, rest⟩ := pr
      simp only [astarLoop, hpop] at h
      obtain ⟨hcurmem, hrsub, hrlen⟩ := popMin_spec st.openSet cur rest hpop
      obtain ⟨hkey, hor⟩ := hinv.2.1 cur hcurmem
      by_cases hgoal : cur.cell = ctx.goal
      · rw [if_pos hgoal] at h
        have hp : p = reconstruct ctx st.came (cur.cell, cur.time) :=
          (Option.some.inj h).symm
        subst hp
        rcases List.mem_map.mp hkey with ⟨q, hq, hqk⟩
        obtain ⟨_, ht0, htm, _⟩ := hinv.1.2 q hq
        rw [hqk] at ht0 htm
        have ht0' : ctx.start_time ≤ cur.time := ht0
        have htm' : cur.time ≤ ctx.maxTime := htm
        obtain ⟨hlen, hlast, hpath⟩ := reconstructAux_spec ctx st.came hinv.2.2.1
          ((cur.time - ctx.start_time).toNat + 1) (cur.cell, cur.time) hor
          (by show (cur.time - ctx.start_time).toNat <
                (cur.time - ctx.start_time).toNat + 1
              omega)
        refine Or.inr ⟨cur.time, ht0', htm', hlen, rfl, ?_, hpath⟩
        rw [← hgoal]
        exact hlast
      · rw [if_neg hgoal] at h
        by_cases hmt : ctx.maxTime ≤ cur.time
        · rw [if_pos hmt] at h
          exact ih _ p (StInv_sub_open ctx st rest hinv hrsub) h
        · rw [if_neg hmt] at h
          have hinv2 := StInv_sub_open ctx st rest hinv hrsub
          obtain ⟨hinv3, _⟩ := expand_spec ctx cur { st with openSet := rest }
            hinv2 hkey hor (lt_of_not_le hmt)
          exact ih _ p hinv3 h

theorem astarLoop_ne_none (ctx : AstarCtx) :
    ∀ (fuel : Nat) (st : SearchState), StInv ctx st →
      st.openSet.length + (SBound ctx - st.gs.length) < fuel →
      astarLoop ctx fuel st ≠ none := by
  intro fuel
  induction fuel with
  | zero => intro st _ hf; omega
  | succ fuel ih =>
    intro st hinv hf
    cases hpop : popMin st.openSet with
    | none => simp [astarLoop, hpop]
    | some pr =>
      obtain ⟨cur, rest⟩ := pr
      obtain ⟨hcurmem, hrsub, hrlen⟩ := popMin_spec st.openSet cur rest hpop
      obtain ⟨hkey, hor⟩ := hinv.2.1 cur hcurmem
      have hinv2 := StInv_sub_open ctx st rest hinv hrsub
      by_cases hgoal : cur.cell = ctx.goal
      · simp [astarLoop, hpop, hgoal]
      · by_cases hmt : ctx.maxTime ≤ cur.time
        · have hrec := ih { st with openSet := rest } hinv2 (by
            show rest.length + (SBound ctx - st.gs.length) < fuel
            omega)
          simp only [astarLoop, hpop, if_neg hgoal, if_pos hmt]
          exact hrec
        · obtain ⟨hinv3, heq⟩ := expand_spec ctx cur { st with openSet := rest }
            hinv2 hkey hor (lt_of_not_le hmt)
          have hb1 : st.gs.length ≤ SBound ctx := gs_length_le ctx st hinv
          have hb2 : (expand ctx cur { st with openSet := rest }).gs.length ≤
              SBound ctx := gs_length_le ctx _ hinv3
          have hrec := ih (expand ctx cur { st with openSet := rest }) hinv3 (by
            have heq2 : (expand ctx cur { st with openSet := rest }).openSet.length +
                st.gs.length = rest.length +
                (expand ctx cur { st with openSet := rest }).gs.length := heq
            omega)
          simp only [astarLoop, hpop, if_neg hgoal, if_neg hmt]
          exact hrec

theorem plan_path_cases (w : World) (start goal : Cell) (T : ReservationTable)
    (a : AgentId) (t0 : Int) :
    plan_path w start goal T a t0 = [] ∨
    (∃ tg : Int, t0 ≤ tg ∧ tg ≤ t0 + w.width * w.height * 2 ∧
      (plan_path w start goal T a t0).length = (tg - t0).toNat + 1 ∧
      (plan_path w start goal T a t0).getD 0 default = start ∧
      (plan_path w start goal T a t0).getLast? = some goal ∧
      w.is_free_cell start = true ∧
      PathOK ⟨w, start, goal, T, a, t0⟩ (plan_path w start goal T a t0)) := by
  by_cases hg : ¬ (w.is_free_cell start && w.is_free_cell goal) = true
  · exact Or.inl (by unfold plan_path; rw [if_pos hg])
  · have hfg : (w.is_free_cell start && w.is_free_cell goal) = true := by
      rcases Bool.eq_false_or_eq_true (w.is_free_cell start && w.is_free_cell goal)
        with hb | hb
      · exact hb
      · exact absurd (by rw [hb]; exact Bool.false_ne_true) hg
    have hfree : w.is_free_cell start = true := by
      simp only [Bool.and_eq_true] at hfg
      exact hfg.1
    have hplan : plan_path w start goal T a t0 =
        match astarLoop ⟨w, start, goal, T, a, t0⟩
          (AstarCtx.fuelBound ⟨w, start, goal, T, a, t0⟩)
          (initSearch ⟨w, start, goal, T, a, t0⟩) with
        | some p => p
        | none => [] := by
      unfold plan_path
      rw [if_neg hg]
    cases hres : astarLoop ⟨w, start, goal, T, a, t0⟩
        (AstarCtx.fuelBound ⟨w, start, goal, T, a, t0⟩)
        (initSearch ⟨w, start, goal, T, a, t0⟩) with
    | none => exact Or.inl (by rw [hplan, hres])
    | some p =>
      have hpp : plan_path w start goal T a t0 = p := by rw [hplan, hres]
      rcases astarLoop_sound ⟨w, start, goal, T, a, t0⟩ _ _ p
        (initSearch_StInv ⟨w, start, goal, T, a, t0⟩ hfree) hres with hnil | hsound
      · exact Or.inl (by rw [hpp, hnil])
      · obtain ⟨tg, h1, h2, h3, h4, h5, h6⟩ := hsound
        rw [← hpp] at h3 h4 h5 h6
        exact Or.inr ⟨tg, h1, h2, h3, h4, h5, hfree, h6⟩

theorem not_holds_of_is_reserved_false (T : ReservationTable) (c : Cell) (t : Int)
    (a : AgentId) (h : is_reserved T c t a = false) :
    ¬ ∃ b, b ≠ a ∧ T.holds b ⟨c.x, c.y, t⟩ := by
  rintro ⟨b, hb, hh⟩
  unfold is_reserved at h
  unfold ReservationTable.holds at hh
  cases hf : T.find ⟨c.x, c.y, t⟩ with
  | none =>
    rw [hf] at hh
    exact hh
  | some e =>
    rw [hf] at hh h
    have hh2 : e.agent_id = b := hh
    have h2 : (e.agent_id != a) = false := h
    have h3 : e.agent_id = a := by simpa using h2
    exact hb (by rw [← hh2, h3])

theorem not_swap_of_edge_collision_false (T : ReservationTable) (cur next : Cell)
    (ct : Int) (a : AgentId) (h : edge_collision T cur next ct a = false) :
    ¬ ∃ b, b ≠ a ∧ T.holds b ⟨next.x, next.y, ct⟩ ∧
      T.holds b ⟨cur.x, cur.y, ct + 1⟩ := by
  rintro ⟨b, hb, h1, h2⟩
  unfold ReservationTable.holds at h1 h2
  cases hf1 : T.find ⟨next.x, next.y, ct⟩ with
  | none =>
    rw [hf1] at h1
    exact h1
  | some e =>
    rw [hf1] at h1
    have he1 : e.agent_id = b := h1
    have hf1b : List.find? (fun x => x.key == (⟨next.x, next.y, ct⟩ : ReservationKey)) T
        = some e := hf1
    have hemem : e ∈ T := List.mem_of_find?_eq_some hf1b
    have hekey : e.key = ⟨next.x, next.y, ct⟩ := by
      have h4 := List.find?_some hf1b
      simpa using h4
    cases hf2 : T.find ⟨cur.x, cur.y, ct + 1⟩ with
    | none =>
      rw [hf2] at h2
      exact h2
    | some e2 =>
      rw [hf2] at h2
      have he2 : e2.agent_id = b := h2
      unfold edge_collision at h
      rw [List.any_eq_false] at h
      refine h e hemem ?_
      show (e.agent_id != a && e.key.t == ct && e.key.x == next.x &&
        e.key.y == next.y &&
        (match T.find ⟨cur.x, cur.y, ct + 1⟩ with
         | some e2 => e2.agent_id == e.agent_id
         | none => false)) = true
      rw [hf2, hekey]
      simp [bne_iff_ne, beq_iff_eq, he1, he2, hb]

/-- C4.  Soundness of plan_path: every returned path is empty or begins at
start, ends at goal, consists of free in-bounds cells only, and each
consecutive pair is a wait or a 4-adjacent unit step. -/
theorem plan_path_sound (w : World) (start goal : Cell) (T : ReservationTable)
    (a : AgentId) (t0 : Int) :
    plan_path w start goal T a t0 = [] ∨
    ((plan_path w start goal T a t0).getD 0 default = start ∧
     (plan_path w start goal T a t0).getLast? = some goal ∧
     (∀ i : Nat, i < (plan_path w start goal T a t0).length →
        w.is_free_cell ((plan_path w start goal T a t0).getD i default) = true ∧
        w.is_valid_cell ((plan_path w start goal T a t0).getD i default) = true) ∧
     (∀ i : Nat, i + 1 < (plan_path w start goal T a t0).length →
        isLegalStep ((plan_path w start goal T a t0).getD i default)
          ((plan_path w start goal T a t0).getD (i + 1) default) = true)) := by
  rcases plan_path_cases w start goal T a t0 with hnil | hok
  · exact Or.inl hnil
  · obtain ⟨tg, _, _, _, h4, h5, hfree, hpath⟩ := hok
    refine Or.inr ⟨h4, h5, ?_, ?_⟩
    · intro i hi
      cases i with
      | zero =>
        rw [h4]
        exact ⟨hfree, free_cell_valid _ _ hfree⟩
      | succ j =>
        have hstep := hpath j hi
        obtain ⟨_, hfree2, _, _⟩ := hstep
        exact ⟨hfree2, free_cell_valid _ _ hfree2⟩
    · intro i hi
      obtain ⟨hleg, _, _, _⟩ := hpath i hi
      exact hleg

/-- C8.  Termination of plan_path: when the start cell is free the search
loop returns within the fuel bound derived from the time horizon
start_tick + 2 * width * height (and when it is not free, plan_path returns
[] without searching); any returned path has at most
2 * width * height + 1 cells. -/
theorem plan_path_terminates (w : World) (start goal : Cell) (T : ReservationTable)
    (a : AgentId) (t0 : Int) (hfree : w.is_free_cell start = true) :
    astarLoop ⟨w, start, goal, T, a, t0⟩
      (AstarCtx.fuelBound ⟨w, start, goal, T, a, t0⟩)
      (initSearch ⟨w, start, goal, T, a, t0⟩) ≠ none ∧
    (plan_path w start goal T a t0).length ≤ (w.width * w.height * 2).toNat + 1 := by
  constructor
  · have hinv := initSearch_StInv ⟨w, start, goal, T, a, t0⟩ hfree
    have hwh : 0 < w.width ∧ 0 < w.height := by
      obtain ⟨hx0, hxw, hy0, hyh⟩ :=
        valid_cell_bounds _ _ (free_cell_valid _ _ hfree)
      exact ⟨by omega, by omega⟩
    have hsb : 1 ≤ SBound ⟨w, start, goal, T, a, t0⟩ := by
      show 1 ≤ w.width.toNat * w.height.toNat * ((w.width * w.height * 2).toNat + 1)
      have h1 : 1 ≤ w.width.toNat := by omega
      have h2 : 1 ≤ w.height.toNat := by omega
      calc 1 = 1 * 1 * 1 := rfl
        _ ≤ w.width.toNat * w.height.toNat * ((w.width * w.height * 2).toNat + 1) :=
          Nat.mul_le_mul (Nat.mul_le_mul h1 h2) (by omega)
    refine astarLoop_ne_none ⟨w, start, goal, T, a, t0⟩ _ _ hinv ?_
    show (1 : Nat) + (SBound ⟨w, start, goal, T, a, t0⟩ - 1) <
      SBound ⟨w, start, goal, T, a, t0⟩ + 1
    omega
  · rcases plan_path_cases w start goal T a t0 with hnil | hok
    · rw [hnil]
      simp
    · obtain ⟨tg, h1, h2, h3, _⟩ := hok
      rw [h3]
      omega

/-- C3 (counterexample to the original claim).  plan_path never checks the
start cell against the reservation table: on the 1-by-2 strip, with the
start cell (0,0) reserved at the start tick 5 by agent 2, planning for
agent 1 still returns the non-empty path [(0,0),(1,0)] whose cell at index
0 is reserved by another agent at tick start_tick + 0, contradicting the
claimed no-vertex-conflict property "including i = 0". -/
theorem plan_path_start_conflict_counterexample :
    plan_path worldStrip ⟨0, 0⟩ ⟨1, 0⟩ [⟨⟨0, 0, 5⟩, 2⟩] 1 5 =
      [⟨0, 0⟩, ⟨1, 0⟩] ∧
    ReservationTable.holds [⟨⟨0, 0, 5⟩, 2⟩] 2 ⟨0, 0, 5⟩ ∧
    (2 : AgentId) ≠ 1 := by
  decide

/-- C3 (amended).  For every index i ≥ 1 of a path returned by plan_path,
the cell path[i] is not reserved by any agent other than agent_id at tick
start_tick + i, and no agent B ≠ agent_id holds both reservations
(path[i], start_tick+i-1) and (path[i-1], start_tick+i); the unchecked
index 0 is the sole exception to the claimed property. -/
theorem plan_path_conflict_free_amended (w : World) (start goal : Cell)
    (T : ReservationTable) (a : AgentId) (t0 : Int) (i : Nat) (h1 : 1 ≤ i)
    (h2 : i < (plan_path w start goal T a t0).length) :
    (¬ ∃ b, b ≠ a ∧ T.holds b
      ⟨((plan_path w start goal T a t0).getD i default).x,
       ((plan_path w start goal T a t0).getD i default).y, t0 + i⟩) ∧
    (¬ ∃ b, b ≠ a ∧ T.holds b
      ⟨((plan_path w start goal T a t0).getD i default).x,
       ((plan_path w start goal T a t0).getD i default).y, t0 + i - 1⟩ ∧
      T.holds b
      ⟨((plan_path w start goal T a t0).getD (i - 1) default).x,
       ((plan_path w start goal T a t0).getD (i - 1) default).y, t0 + i⟩) := by
  rcases plan_path_cases w start goal T a t0 with hnil | hok
  · rw [hnil] at h2
    exact absurd h2 (by simp)
  · obtain ⟨tg, _, _, _, _, _, _, hpath⟩ := hok
    obtain ⟨j, rfl⟩ : ∃ j, i = j + 1 := ⟨i - 1, by omega⟩
    have hstep := hpath j h2
    obtain ⟨_, _, hres, hedge⟩ := hstep
    have hcast : t0 + (j : Int) + 1 = t0 + ((j + 1 : Nat) : Int) := by push_cast; ring
    constructor
    · rw [← hcast]
      exact not_holds_of_is_reserved_false T _ _ a hres
    · show ¬ ∃ b, b ≠ a ∧ T.holds b
        ⟨((plan_path w start goal T a t0).getD (j + 1) default).x,
         ((plan_path w start goal T a t0).getD (j + 1) default).y,
         t0 + ((j + 1 : Nat) : Int) - 1⟩ ∧
        T.holds b
        ⟨((plan_path w start goal T a t0).getD j default).x,
         ((plan_path w start goal T a t0).getD j default).y,
         t0 + ((j + 1 : Nat) : Int)⟩
      by_cases hne : (plan_path w start goal T a t0).getD (j + 1) default =
          (plan_path w start goal T a t0).getD j default
      · rintro ⟨b, hb, hh1, hh2⟩
        refine not_holds_of_is_reserved_false T _ _ a hres ⟨b, hb, ?_⟩
        show T.holds b
          ⟨((plan_path w start goal T a t0).getD (j + 1) default).x,
           ((plan_path w start goal T a t0).getD (j + 1) default).y,
           t0 + (j : Int) + 1⟩
        rw [hcast, hne]
        exact hh2
      · have hec := hedge hne
        rintro ⟨b, hb, hh1, hh2⟩
        refine not_swap_of_edge_collision_false T _ _ _ a hec ⟨b, hb, ?_, ?_⟩
        · show T.holds b
            ⟨((plan_path w start goal T a t0).getD (j + 1) default).x,
             ((plan_path w start goal T a t0).getD (j + 1) default).y,
             t0 + (j : Int) + 1 - 1⟩
          rw [show t0 + (j : Int) + 1 - 1 = t0 + ((j + 1 : Nat) : Int) - 1 from by
            push_cast; ring]
          exact hh1
        · show T.holds b
            ⟨((plan_path w start goal T a t0).getD j default).x,
             ((plan_path w start goal T a t0).getD j default).y,
             t0 + (j : Int) + 1 - 1 + 1⟩
          rw [show t0 + (j : Int) + 1 - 1 + 1 = t0 + ((j + 1 : Nat) : Int) from by
            push_cast; ring]
          exact hh2

/-- C3 witness for the amended theorem: on the 1-by-2 strip with (0,0)
reserved at tick 5 by agent 2, index 1 of the returned path [(0,0),(1,0)]
is conflict-free for agent 1. -/
theorem plan_path_conflict_free_amended_witness :
    (¬ ∃ b, b ≠ (1 : AgentId) ∧
      ReservationTable.holds [⟨⟨0, 0, 5⟩, 2⟩] b
      ⟨((plan_path worldStrip ⟨0, 0⟩ ⟨1, 0⟩ [⟨⟨0, 0, 5⟩, 2⟩] 1 5).getD 1 default).x,
       ((plan_path worldStrip ⟨0, 0⟩ ⟨1, 0⟩ [⟨⟨0, 0, 5⟩, 2⟩] 1 5).getD 1 default).y,
       5 + (1 : Nat)⟩) ∧
    (¬ ∃ b, b ≠ (1 : AgentId) ∧
      ReservationTable.holds [⟨⟨0, 0, 5⟩, 2⟩] b
      ⟨((plan_path worldStrip ⟨0, 0⟩ ⟨1, 0⟩ [⟨⟨0, 0, 5⟩, 2⟩] 1 5).getD 1 default).x,
       ((plan_path worldStrip ⟨0, 0⟩ ⟨1, 0⟩ [⟨⟨0, 0, 5⟩, 2⟩] 1 5).getD 1 default).y,
       5 + (1 : Nat) - 1⟩ ∧
      ReservationTable.holds [⟨⟨0, 0, 5⟩, 2⟩] b
      ⟨((plan_path worldStrip ⟨0, 0⟩ ⟨1, 0⟩ [⟨⟨0, 0, 5⟩, 2⟩] 1 5).getD 0 default).x,
       ((plan_path worldStrip ⟨0, 0⟩ ⟨1, 0⟩ [⟨⟨0, 0, 5⟩, 2⟩] 1 5).getD 0 default).y,
       5 + (1 : Nat)⟩) :=
  plan_path_conflict_free_amended worldStrip ⟨0, 0⟩ ⟨1, 0⟩ [⟨⟨0, 0, 5⟩, 2⟩] 1 5 1
    (by decide) (by decide)

/-- C8 witness: on the 1-by-2 strip with an empty reservation table, the
search loop for agent 1 from (0,0) to (1,0) at tick 0 returns within the
fuel bound, and the returned path has at most 2 * 2 * 1 + 1 = 5 cells. -/
theorem plan_path_terminates_witness :
    astarLoop ⟨worldStrip, ⟨0, 0⟩, ⟨1, 0⟩, ([] : ReservationTable), 1, 0⟩
      (AstarCtx.fuelBound ⟨worldStrip, ⟨0, 0⟩, ⟨1, 0⟩, ([] : ReservationTable), 1, 0⟩)
      (initSearch ⟨worldStrip, ⟨0, 0⟩, ⟨1, 0⟩, ([] : ReservationTable), 1, 0⟩) ≠ none ∧
    (plan_path worldStrip ⟨0, 0⟩ ⟨1, 0⟩ ([] : ReservationTable) 1 0).length ≤
      (worldStrip.width * worldStrip.height * 2).toNat + 1 :=
  plan_path_terminates worldStrip ⟨0, 0⟩ ⟨1, 0⟩ ([] : ReservationTable) 1 0 (by decide)

theorem backedOff_id (c : AgentController) (i : Nat) : (backedOff c i).id = c.id := rfl

theorem map_backoff_ids (aid : AgentId) (i : Nat) (cs : List AgentController) :
    (cs.map (fun c => if c.id == aid then backedOff c i else c)).map (fun c => c.id) =
      cs.map (fun c => c.id) := by
  rw [List.map_map]
  apply List.map_congr_left
  intro c _
  by_cases h : (c.id == aid) = true
  · show (if (c.id == aid) = true then backedOff c i else c).id = c.id
    rw [if_pos h]
    exact rfl
  · show (if (c.id == aid) = true then backedOff c i else c).id = c.id
    rw [if_neg h]

theorem getD_inj_of_nodup (l : List AgentId) (hnd : l.Nodup) (i j : Nat)
    (hi : i < l.length) (hj : j < l.length) (h : l.getD i 0 = l.getD j 0) : i = j := by
  have hgi : l.getD i 0 = l.get ⟨i, hi⟩ := by
    show (l.get? i).getD 0 = _
    rw [List.get?_eq_get hi]
    rfl
  have hgj : l.getD j 0 = l.get ⟨j, hj⟩ := by
    show (l.get? j).getD 0 = _
    rw [List.get?_eq_get hj]
    rfl
  rw [hgi, hgj] at h
  have := (List.nodup_iff_injective_get.mp hnd) h
  exact congrArg Fin.val this

theorem backoff_foldl (sorted : List AgentId) (hs : sorted.Nodup) :
    ∀ (L : List Nat), L.Nodup → (∀ i ∈ L, i < sorted.length) →
    ∀ (w : World) (cs : List AgentController),
      (∀ i ∈ L, sorted.getD i 0 ∈ cs.map (fun c => c.id)) →
      L.foldl (backoffStep sorted) (w, cs) =
        ({ w with agents := w.agents.map (fun ag =>
             if (L.find? (fun i => sorted.getD i 0 == ag.id)).isSome then
               { ag with collision_stopped := false } else ag) },
         cs.map (fun c => match L.find? (fun i => sorted.getD i 0 == c.id) with
           | some i => backedOff c i
           | none => c)) := by
  intro L
  induction L with
  | nil =>
    intro _ _ w cs _
    simp only [List.foldl_nil, List.find?_nil, Option.isSome_none, Bool.false_eq_true,
      if_false]
    rw [Prod.mk.injEq]
    constructor
    · rw [show (List.map (fun (ag : AgentState) => ag) w.agents) = w.agents from
        List.map_id' w.agents]
    · rw [show (List.map (fun (c : AgentController) => c) cs) = cs from List.map_id' cs]
  | cons i0 L ih =>
    intro hnd hlen w cs hpres
    rw [List.nodup_cons] at hnd
    obtain ⟨hi0L, hndL⟩ := hnd
    have hi0 : i0 < sorted.length := hlen i0 (List.mem_cons_self i0 L)
    have hp0 : sorted.getD i0 0 ∈ cs.map (fun c => c.id) :=
      hpres i0 (List.mem_cons_self i0 L)
    rcases List.mem_map.mp hp0 with ⟨c0, hc0, hc0id⟩
    have hguard : ((cs.find? (fun c => c.id == sorted.getD i0 0)).isSome) = true := by
      rw [List.find?_isSome]
      exact ⟨c0, hc0, by simp [hc0id]⟩
    have hstep : backoffStep sorted (w, cs) i0 =
        (set_agent_collision_stopped w (sorted.getD i0 0) false,
         cs.map (fun c => if c.id == sorted.getD i0 0 then backedOff c i0 else c)) := by
      unfold backoffStep
      rw [if_pos hguard]
    rw [List.foldl_cons, hstep]
    have hpres2 : ∀ i ∈ L, sorted.getD i 0 ∈
        (cs.map (fun c => if c.id == sorted.getD i0 0 then backedOff c i0 else c)).map
          (fun c => c.id) := by
      intro i hi
      rw [map_backoff_ids]
      exact hpres i (List.mem_cons_of_mem i0 hi)
    rw [ih hndL (fun i hi => hlen i (List.mem_cons_of_mem i0 hi)) _ _ hpres2]
    have hinj : ∀ j ∈ L, sorted.getD j 0 ≠ sorted.getD i0 0 := by
      intro j hj hjeq
      exact hi0L (getD_inj_of_nodup sorted hs j i0
        (hlen j (List.mem_cons_of_mem i0 hj)) hi0 hjeq ▸ hj)
    rw [Prod.mk.injEq]
    constructor
    · unfold set_agent_collision_stopped updateAgent
      simp only [List.map_map]
      congr 1
      apply List.map_congr_left
      intro ag _
      show (if (L.find? (fun i => sorted.getD i 0 ==
          (if (ag.id == sorted.getD i0 0) = true then
            { ag with collision_stopped := false } else ag).id)).isSome = true
        then { ((if (ag.id == sorted.getD i0 0) = true then
            { ag with collision_stopped := false } else ag)) with collision_stopped := false }
        else (if (ag.id == sorted.getD i0 0) = true then
            { ag with collision_stopped := false } else ag)) = _
      by_cases hag : (ag.id == sorted.getD i0 0) = true
      · rw [if_pos hag]
        have hagid : ag.id = sorted.getD i0 0 := beq_iff_eq.mp hag
        have hXid : (AgentState.mk ag.id ag.pos ag.goal ag.at_goal false).id = ag.id := rfl
        have hfnone : L.find? (fun i => sorted.getD i 0 ==
            ({ ag with collision_stopped := false } : AgentState).id) = none := by
          rw [List.find?_eq_none]
          intro j hj
          simp only [beq_iff_eq, hXid]
          rw [hagid]
          exact hinj j hj
        rw [hfnone]
        rw [List.find?_cons_of_pos _ (by simp [hagid])]
        simp
      · rw [if_neg hag]
        rw [List.find?_cons_of_neg _ (by
          simp only [beq_iff_eq]
          intro hx
          exact hag (beq_iff_eq.mpr hx.symm))]
    · rw [List.map_map]
      apply List.map_congr_left
      intro c _
      show (match L.find? (fun i => sorted.getD i 0 ==
          (if (c.id == sorted.getD i0 0) = true then backedOff c i0 else c).id) with
        | some i => backedOff (if (c.id == sorted.getD i0 0) = true then backedOff c i0 else c) i
        | none => (if (c.id == sorted.getD i0 0) = true then backedOff c i0 else c)) = _
      by_cases hag : (c.id == sorted.getD i0 0) = true
      · rw [if_pos hag]
        have hagid : c.id = sorted.getD i0 0 := beq_iff_eq.mp hag
        have hfnone : L.find? (fun i => sorted.getD i 0 == (backedOff c i0).id) = none := by
          rw [List.find?_eq_none]
          intro j hj
          simp only [beq_iff_eq, backedOff_id]
          rw [hagid]
          exact hinj j hj
        rw [hfnone]
        rw [List.find?_cons_of_pos _ (by simp [hagid])]
      · rw [if_neg hag]
        rw [List.find?_cons_of_neg _ (by
          simp only [beq_iff_eq]
          intro hx
          exact hag (beq_iff_eq.mpr hx.symm))]

/-- C7 (amended).  For a nonempty, duplicate-free list of deadlocked agents
all of which have controllers, resolve_deadlock sorts the ids ascending and
forces exactly the last max(1, floor(n/2)) agents of the sorted order (the
lowest-priority ones) to back off: current_path cleared, path_index 0,
needs_replan set, stuck_counter 0, own reservations erased from the local
table, collision_stopped cleared on the world agent, and wait_counter set to
3 + (i mod 5) for sorted index i.  All other agents are left unchanged.
(The claim said exactly the upper half, i.e. floor(n/2) agents; for n = 1
the code still backs off one agent.) -/
theorem resolve_deadlock_spec (ids : List AgentId) (w : World)
    (ctls : List AgentController) (hne : ids ≠ []) (hnd : ids.Nodup)
    (hpres : ∀ a ∈ ids, a ∈ ctls.map (fun c => c.id)) :
    resolve_deadlock ids w ctls =
      ({ w with agents := w.agents.map (fun ag =>
           if (backIndex ids ag.id).isSome then
             { ag with collision_stopped := false } else ag) },
       ctls.map (fun c => match backIndex ids c.id with
         | some i => backedOff c i
         | none => c)) := by
  unfold resolve_deadlock backIndex
  have hperm : (List.insertionSort (fun x y => Nat.ble x y = true) ids).Perm ids :=
    List.perm_insertionSort _ ids
  have hs : (List.insertionSort (fun x y => Nat.ble x y = true) ids).Nodup :=
    hperm.nodup_iff.mpr hnd
  have hn1 : 1 ≤ (List.insertionSort (fun x y => Nat.ble x y = true) ids).length := by
    rw [hperm.length_eq]
    cases ids with
    | nil => exact absurd rfl hne
    | cons a l => simp
  have hkn : Nat.max 1 ((List.insertionSort (fun x y => Nat.ble x y = true) ids).length / 2) ≤
      (List.insertionSort (fun x y => Nat.ble x y = true) ids).length :=
    Nat.max_le.mpr ⟨hn1, Nat.div_le_self _ 2⟩
  apply backoff_foldl _ hs _ (List.nodup_range' ..)
  · intro i hi
    have := (List.mem_range'_1).mp hi
    omega
  · intro i hi
    have hib := (List.mem_range'_1).mp hi
    have hilen : i < (List.insertionSort (fun x y => Nat.ble x y = true) ids).length := by
      omega
    have hmem : (List.insertionSort (fun x y => Nat.ble x y = true) ids).getD i 0 ∈
        List.insertionSort (fun x y => Nat.ble x y = true) ids := by
      have : (List.insertionSort (fun x y => Nat.ble x y = true) ids).getD i 0 =
          (List.insertionSort (fun x y => Nat.ble x y = true) ids).get ⟨i, hilen⟩ := by
        show ((List.insertionSort (fun x y => Nat.ble x y = true) ids).get? i).getD 0 = _
        rw [List.get?_eq_get hilen]
        rfl
      rw [this]
      exact List.get_mem _ _ _
    exact hpres _ (hperm.mem_iff.mp hmem)

/-- C7 counterexample: for a single deadlocked agent the claimed rule (back
off exactly the upper half of the sorted list, i.e. floor(1/2) = 0 agents,
leaving the agent unchanged) is contradicted by the code, which backs off
max(1, 0) = 1 agent: the lone agent's path is cleared and needs_replan
set. -/
theorem resolve_deadlock_singleton_counterexample :
    ((1 : Nat) / 2 = 0) ∧
    ctlSeven.needs_replan = false ∧ ctlSeven.current_path ≠ [] ∧
    (resolve_deadlock [7] worldThree [ctlSeven]).2 ≠ [ctlSeven] ∧
    ((resolve_deadlock [7] worldThree [ctlSeven]).2.getD 0 { id := 0 }).needs_replan = true ∧
    ((resolve_deadlock [7] worldThree [ctlSeven]).2.getD 0 { id := 0 }).current_path = [] := by
  decide

/-- C7 witness: two deadlocked agents 7 and 9; the resolver backs off only
agent 9 (sorted index 1), leaving agent 7 untouched. -/
theorem resolve_deadlock_spec_witness :
    (resolve_deadlock [7, 9] worldThree [ctlSeven, { id := 9 }]).2 =
      [ctlSeven, backedOff { id := 9 } 1] := by
  have h := resolve_deadlock_spec [7, 9] worldThree [ctlSeven, { id := 9 }]
    (by decide) (by decide) (by decide)
  rw [h]
  decide

theorem find_cons (e : ReservationEntry) (T : ReservationTable) (k : ReservationKey) :
    ReservationTable.find (e :: T) k =
      if (e.key == k) = true then some e else T.find k := by
  show List.find? _ _ = _
  rw [List.find?_cons]
  cases h : (e.key == k) <;> simp [h, ReservationTable.find]

theorem find_eq_none_of_not_mem_keys (T : ReservationTable) (k : ReservationKey)
    (h : k ∉ T.map (fun e => e.key)) : T.find k = none := by
  unfold ReservationTable.find
  rw [List.find?_eq_none]
  intro e he hbe
  exact h (List.mem_map.mpr ⟨e, he, (beq_iff_eq.mp hbe)⟩)

theorem insertEntry_of_mem (T : ReservationTable) (e : ReservationEntry) (x : ReservationEntry)
    (h : T.find e.key = some x) : T.insertEntry e = T := by
  unfold ReservationTable.insertEntry
  rw [h]

theorem insertEntry_of_not_mem (T : ReservationTable) (e : ReservationEntry)
    (h : T.find e.key = none) : T.insertEntry e = e :: T := by
  unfold ReservationTable.insertEntry
  rw [h]

theorem holds_insertEntry (T : ReservationTable) (e : ReservationEntry) (b : AgentId)
    (k : ReservationKey) :
    (T.insertEntry e).holds b k ↔
      (T.holds b k ∨ (¬ T.keyMem e.key ∧ k = e.key ∧ b = e.agent_id)) := by
  cases hm : T.find e.key with
  | some x =>
    rw [insertEntry_of_mem T e x hm]
    have : T.keyMem e.key := by unfold ReservationTable.keyMem; rw [hm]; rfl
    simp [this]
  | none =>
    rw [insertEntry_of_not_mem T e hm]
    have hkm : ¬ T.keyMem e.key := by unfold ReservationTable.keyMem; rw [hm]; simp
    unfold ReservationTable.holds
    rw [find_cons]
    cases he : (e.key == k) with
    | true =>
      have hek : e.key = k := beq_iff_eq.mp he
      subst hek
      rw [if_pos rfl]
      show (e.agent_id = b) ↔ _
      constructor
      · intro h2
        exact Or.inr ⟨hkm, rfl, h2.symm⟩
      · intro h2
        rcases h2 with h2 | ⟨_, _, h5⟩
        · rw [hm] at h2
          exact h2.elim
        · exact h5.symm
    | false =>
      rw [if_neg (by simp)]
      have hek : k ≠ e.key := fun h2 => by simp [h2] at he
      simp [hkm, hek]

theorem keyMem_insertEntry (T : ReservationTable) (e : ReservationEntry) (k : ReservationKey) :
    (T.insertEntry e).keyMem k ↔ (T.keyMem k ∨ (¬ T.keyMem e.key ∧ k = e.key)) := by
  cases hm : T.find e.key with
  | some x =>
    rw [insertEntry_of_mem T e x hm]
    have : T.keyMem e.key := by unfold ReservationTable.keyMem; rw [hm]; rfl
    simp [this]
  | none =>
    rw [insertEntry_of_not_mem T e hm]
    have hkm : ¬ T.keyMem e.key := by unfold ReservationTable.keyMem; rw [hm]; simp
    unfold ReservationTable.keyMem
    rw [find_cons]
    cases he : (e.key == k) with
    | true =>
      have hek : e.key = k := beq_iff_eq.mp he
      subst hek
      rw [if_pos rfl]
      constructor
      · intro _; exact Or.inr ⟨hkm, rfl⟩
      · intro _; rfl
    | false =>
      rw [if_neg (by simp)]
      have hek : k ≠ e.key := fun h2 => by simp [h2] at he
      simp [hkm, hek]

theorem keysUnique_insertEntry (T : ReservationTable) (e : ReservationEntry)
    (hU : T.keysUnique) : (T.insertEntry e).keysUnique := by
  cases hm : T.find e.key with
  | some x => rw [insertEntry_of_mem T e x hm]; exact hU
  | none =>
    rw [insertEntry_of_not_mem T e hm]
    unfold ReservationTable.keysUnique at hU ⊢
    rw [List.map_cons, List.nodup_cons]
    refine ⟨?_, hU⟩
    intro hmem
    rcases List.mem_map.mp hmem with ⟨x, hx, hkx⟩
    have := List.find?_eq_none.mp hm x hx
    simp [hkx] at this

theorem keysUnique_eraseAgent (T : ReservationTable) (a : AgentId)
    (hU : T.keysUnique) : (T.eraseAgent a).keysUnique := by
  unfold ReservationTable.keysUnique at hU ⊢
  exact hU.sublist ((List.filter_sublist T).map _)

theorem holds_eraseAgent (T : ReservationTable) (a b : AgentId) (k : ReservationKey)
    (hU : T.keysUnique) :
    (T.eraseAgent a).holds b k ↔ (b ≠ a ∧ T.holds b k) := by
  induction T with
  | nil => simp [ReservationTable.eraseAgent, ReservationTable.holds, ReservationTable.find]
  | cons e rest ih =>
    unfold ReservationTable.keysUnique at hU
    rw [List.map_cons, List.nodup_cons] at hU
    obtain ⟨hk, hU2⟩ := hU
    have ihr := ih hU2
    show (ReservationTable.holds (List.filter _ (e :: rest)) b k) ↔ _
    rw [List.filter_cons]
    cases ha : (e.agent_id != a) with
    | true =>
      have hea : e.agent_id ≠ a := by simpa using ha
      rw [if_pos rfl]
      unfold ReservationTable.holds
      rw [find_cons, find_cons]
      cases he : (e.key == k) with
      | true =>
        rw [if_pos rfl, if_pos rfl]
        show (e.agent_id = b) ↔ (b ≠ a ∧ e.agent_id = b)
        constructor
        · intro h2; exact ⟨by rw [← h2]; exact hea, h2⟩
        · intro h2; exact h2.2
      | false =>
        rw [if_neg (by simp), if_neg (by simp)]
        exact ihr
    | false =>
      have hea : e.agent_id = a := by simpa using ha
      simp only [Bool.false_eq_true, if_false]
      have ihr2 : ReservationTable.holds (List.filter (fun e2 => e2.agent_id != a) rest) b k ↔
          (b ≠ a ∧ ReservationTable.holds rest b k) := ihr
      rw [ihr2]
      unfold ReservationTable.holds
      rw [find_cons]
      cases he : (e.key == k) with
      | true =>
        have hek : e.key = k := beq_iff_eq.mp he
        subst hek
        rw [if_pos rfl]
        have hfr : ReservationTable.find rest e.key = none := by
          apply find_eq_none_of_not_mem_keys
          exact hk
        rw [hfr]
        constructor
        · intro h2; exact h2.2.elim
        · intro h2
          exact absurd (hea ▸ h2.2.symm) h2.1
      | false =>
        rw [if_neg (by simp)]

theorem keyMem_iff_exists_holds (T : ReservationTable) (k : ReservationKey) :
    T.keyMem k ↔ ∃ b, T.holds b k := by
  unfold ReservationTable.keyMem ReservationTable.holds
  cases h : T.find k <;> simp

theorem foldl_insert_spec (a : AgentId) (ks : List ReservationKey) :
    ∀ (T : ReservationTable),
      (∀ k b, (ks.foldl (fun t k2 => t.insertEntry ⟨k2, a⟩) T).holds b k ↔
        (T.holds b k ∨ (b = a ∧ k ∈ ks ∧ ¬ T.keyMem k))) ∧
      (∀ k, (ks.foldl (fun t k2 => t.insertEntry ⟨k2, a⟩) T).keyMem k ↔
        (T.keyMem k ∨ k ∈ ks)) ∧
      (T.keysUnique → (ks.foldl (fun t k2 => t.insertEntry ⟨k2, a⟩) T).keysUnique) := by
  induction ks with
  | nil => intro T; simp
  | cons k0 ks ih =>
    intro T
    rw [List.foldl_cons]
    obtain ⟨ih1, ih2, ih3⟩ := ih (T.insertEntry ⟨k0, a⟩)
    refine ⟨?_, ?_, ?_⟩
    · intro k b
      rw [ih1 k b, holds_insertEntry, keyMem_insertEntry]
      show _ ↔ _ ∨ _ ∧ k ∈ k0 :: ks ∧ _
      rw [List.mem_cons]
      by_cases hk0 : k = k0 <;> by_cases hm : T.keyMem k <;>
        by_cases hm0 : T.keyMem k0 <;> subst_eqs <;> tauto
    · intro k
      rw [ih2 k, keyMem_insertEntry]
      rw [List.mem_cons]
      by_cases hk0 : k = k0 <;> by_cases hm0 : T.keyMem k0 <;> subst_eqs <;> tauto
    · intro hU
      exact ih3 (keysUnique_insertEntry T _ hU)

/-- C6.  commit_reservations first erases all of the agent's entries, then
claims one key per path index i at tick start_time + i, plus the final cell
at each of the 100 ticks after the path (a trailing window of W = 100, which
meets the claimed W at least 100); an insert whose key is still owned by a
different agent is skipped, the prior entry stays, and key uniqueness is
preserved.  The resulting table holds (k, b) exactly when either b is
another agent that already held k, or b is the committing agent, k is one of
the claimed keys, and no other agent held k. -/
theorem commit_reservations_spec (path : List Cell) (a : AgentId) (T : ReservationTable)
    (t0 : Int) (hU : T.keysUnique) (hne : path ≠ []) :
    (commit_reservations path a T t0).keysUnique ∧
    (∀ f : Nat, f < 100 →
      (⟨(path.getLast!).x, (path.getLast!).y, t0 + path.length + f⟩ : ReservationKey)
        ∈ commitKeys path t0) ∧
    (∀ i : Nat, i < path.length →
      (⟨(path.getD i default).x, (path.getD i default).y, t0 + i⟩ : ReservationKey)
        ∈ commitKeys path t0) ∧
    (∀ k b, (commit_reservations path a T t0).holds b k ↔
      ((b ≠ a ∧ T.holds b k) ∨
       (b = a ∧ k ∈ commitKeys path t0 ∧ ∀ c, c ≠ a → ¬ T.holds c k))) := by
  obtain ⟨hf1, hf2, hf3⟩ := foldl_insert_spec a (commitKeys path t0) (T.eraseAgent a)
  refine ⟨hf3 (keysUnique_eraseAgent T a hU), ?_, ?_, ?_⟩
  · intro f hf
    unfold commitKeys
    apply List.mem_append.mpr
    right
    rw [if_neg (by simpa [List.isEmpty_iff] using hne)]
    exact List.mem_map.mpr ⟨f, List.mem_range.mpr hf, rfl⟩
  · intro i hi
    unfold commitKeys
    apply List.mem_append.mpr
    left
    exact List.mem_map.mpr ⟨i, List.mem_range.mpr hi, rfl⟩
  · intro k b
    unfold commit_reservations clear_reservations
    rw [hf1 k b]
    have he : ∀ c, (T.eraseAgent a).holds c k ↔ (c ≠ a ∧ T.holds c k) :=
      fun c => holds_eraseAgent T a c k hU
    rw [he b]
    have hkm : (T.eraseAgent a).keyMem k ↔ ∃ c, c ≠ a ∧ T.holds c k := by
      rw [keyMem_iff_exists_holds]
      exact exists_congr he
    rw [hkm]
    push_neg
    tauto

/-- C6 witness: committing the 2-cell path [(0,0),(1,0)] for agent 1 at tick
0 over a table where agent 2 already holds ((0,0),5) keeps the table's key
uniqueness. -/
theorem commit_reservations_spec_witness :
    (commit_reservations [⟨0,0⟩, ⟨1,0⟩] 1 [⟨⟨0,0,5⟩, 2⟩] 0).keysUnique ∧
    ((⟨0, 0, 5⟩ : ReservationKey) ∈ commitKeys [⟨0,0⟩, ⟨1,0⟩] 0 → False) ∧
    (commit_reservations [⟨0,0⟩, ⟨1,0⟩] 1 [⟨⟨0,0,5⟩, 2⟩] 0).holds 2 ⟨0,0,5⟩ := by
  have h := commit_reservations_spec [⟨0,0⟩, ⟨1,0⟩] 1 [⟨⟨0,0,5⟩, 2⟩] 0
    (by decide) (by decide)
  refine ⟨h.1, by decide, ?_⟩
  rw [h.2.2.2 ⟨0,0,5⟩ 2]
  exact Or.inl ⟨by decide, by decide⟩

/-- C10.  move_agent returns false and leaves the world unchanged when the
agent is unknown, the target is not a free in-bounds cell, or the target is
occupied by a different agent; when it returns true, the named agent moves
to the target, its at_goal flag is newly set exactly when the target equals
its goal and is never cleared, and all other agents are untouched. -/
theorem move_agent_spec (w : World) (agent_id : AgentId) (np : Cell) :
    ((findAgent w agent_id = none ∨ w.is_free_cell np = false ∨
        w.is_occupied np agent_id = true) →
      move_agent w agent_id np = (false, w)) ∧
    ((move_agent w agent_id np).1 = true →
      (move_agent w agent_id np).2 =
        { w with agents := w.agents.map (fun a =>
            if a.id == agent_id then
              { a with pos := np, at_goal := a.at_goal || (np == a.goal) }
            else a) }) := by
  constructor
  · intro h
    unfold move_agent
    rcases h with h | h | h
    · rw [h]
    · cases hf : findAgent w agent_id with
      | none => rfl
      | some ag => simp [hf, h]
    · cases hf : findAgent w agent_id with
      | none => rfl
      | some ag =>
        simp only [hf]
        by_cases hv : (¬ (w.is_valid_cell np) = true ∨ ¬ (w.is_free_cell np) = true)
        · rw [if_pos hv]
        · rw [if_neg hv, if_pos h]
  · intro h
    unfold move_agent at h ⊢
    cases hf : findAgent w agent_id with
    | none => simp [hf] at h
    | some ag =>
      simp only [hf] at h ⊢
      by_cases hv : (¬ (w.is_valid_cell np) = true ∨ ¬ (w.is_free_cell np) = true)
      · rw [if_pos hv] at h; exact absurd h (by simp)
      · rw [if_neg hv] at h ⊢
        by_cases ho : w.is_occupied np agent_id = true
        · rw [if_pos ho] at h; exact absurd h (by simp)
        · rw [if_neg ho] at h ⊢
          show updateAgent w agent_id _ = _
          unfold updateAgent
          congr 1
          apply List.map_congr_left
          intro a _
          by_cases hid : (a.id == agent_id) = true
          · simp only [hid, if_true]
            congr 1
            cases hg : (np == a.goal) <;> simp [hg]
          · simp [hid]

/-- C10 witness: moving the single agent of worldThree to the free cell
(1,0), which is not its goal. -/
theorem move_agent_spec_witness :
    move_agent worldThree 7 ⟨1,0⟩ =
      (true, { worldThree with agents := worldThree.agents.map (fun a =>
        if a.id == 7 then
          { a with pos := ⟨1,0⟩, at_goal := a.at_goal || ((⟨1,0⟩ : Cell) == a.goal) }
        else a) }) := by
  have h := (move_agent_spec worldThree 7 ⟨1,0⟩).2 (by decide)
  have h1 : (move_agent worldThree 7 ⟨1,0⟩).1 = true := by decide
  calc move_agent worldThree 7 ⟨1,0⟩
      = ((move_agent worldThree 7 ⟨1,0⟩).1, (move_agent worldThree 7 ⟨1,0⟩).2) := rfl
    _ = _ := by rw [h1, h]

end Swarm
